import Mathlib

set_option maxRecDepth 2000

deriving instance DecidableEq for Except

/-!
Verification of the Garmin RSD decoding core.

Shallow embedding of the binary decoding engine of the repository:
the varint codec, the custom CRC, the varstruct decoder, the chunked
magic scanner, the strict ("classic") and tolerant ("nextgen") record
iterators, the strict core builder, the heuristic signature engine and
the orchestrator fallback decision.

Conventions of the embedding:
* a memory mapped file is a `List Nat` of byte values (below 256 in any
  real run; theorems that need this carry it as a hypothesis);
* Python exceptions become `Except String` with the message of the
  `raise` site (formatted offsets and values are dropped from messages);
* Python float arithmetic on coordinates is exact here: the scale
  360 / 2^32 equals 45 / 2^29, so every product with a 32 bit integer is
  a dyadic rational below 2^37 and the IEEE double computation is exact;
  coordinates are therefore modelled as `Rat`;
* logging, progress hooks and cancellation hooks are no-ops in the runs
  the claims quantify over and are omitted.
-/

namespace RSD

/-- Byte buffer: one `Nat` per byte of the mapped file. -/
abbrev Bytes := List Nat

/-- `mm[i]` — byte access (theorems that depend on it keep `i` in bounds,
    mirroring the `IndexError`-free accesses of the source). -/
def byteAt (buf : Bytes) (i : Nat) : Nat := buf.getD i 0

/-- `mm[a:b]` — Python slicing, which clamps both ends. -/
def pySlice (buf : Bytes) (a b : Nat) : Bytes := (buf.take b).drop a

/-- `struct.unpack("<I", ...)` on 4 bytes starting at `i`. -/
def readU32 (buf : Bytes) (i : Nat) : Nat :=
  byteAt buf i + 256 * byteAt buf (i+1) + 65536 * byteAt buf (i+2) +
    16777216 * byteAt buf (i+3)

/-- `struct.unpack("<H", ...)` on 2 bytes starting at `i`. -/
def readU16 (buf : Bytes) (i : Nat) : Nat :=
  byteAt buf i + 256 * byteAt buf (i+1)

/-- `struct.unpack("<i", ...)`: little-endian signed 32 bit value at `i`. -/
def readI32 (buf : Bytes) (i : Nat) : Int :=
  let u := readU32 buf i
  if u < 2147483648 then (u : Int) else (u : Int) - 4294967296

/-- Record header magic `0xB7E9DA86` (`core_shared.MAGIC_REC_HDR` and
    `rsd_core_crc_plus.MAGIC_REC_HDR_DEFAULT`; no `parsing_rules.json`
    ships with the repository, so the defaults are in force). -/
def MAGIC_REC_HDR : Nat := 0xB7E9DA86

/-- Little-endian byte serialization of the header magic. -/
def MAGIC_REC_HDR_LE : Bytes := [0x86, 0xDA, 0xE9, 0xB7]

/-- Trailer magic of `core_shared` (`0xD9264B7C`). -/
def MAGIC_REC_TRL : Nat := 0xD9264B7C

/-- Trailer magic of `rsd_core_crc_plus` (`0xF98EACBC`), little-endian. -/
def MAGIC_REC_TRL_PLUS_LE : Bytes := [0xBC, 0xAC, 0x8E, 0xF9]

namespace core_shared

/-- Loop of `core_shared._read_varuint_from` (state: `pos`, `res`,
    `shift`).  `b & ~0x80` of the source equals `b &&& 0x7F` for byte
    values.  The loop runs while `pos < limit ∧ shift < 35`; since
    `shift` grows by 7 per iteration, at most 5 iterations happen, so the
    recursion is structural on a `fuel` counter started at 5: `fuel = 0`
    is reached exactly when `shift` has reached 35, where the source loop
    exits into the trailing `raise`. -/
def read_varuint_go (buf : Bytes) (limit : Nat) :
    Nat → Nat → Nat → Nat → Except String (Nat × Nat)
  | _, 0, _, _ => .error "VarUInt too long or truncated"
  | pos, fuel + 1, res, shift =>
    if pos < limit ∧ shift < 35 then
      let b := byteAt buf pos
      if 28 ≤ shift ∧ 0x0F < b &&& 0x7F then
        .error "VarUInt overflow in final byte"
      else
        let res2 := res ||| ((b &&& 0x7F) <<< shift)
        if 0xFFFFFFFF < res2 then .error "VarUInt exceeds 32 bits"
        else if b &&& 0x80 = 0 then .ok (res2, pos + 1)
        else read_varuint_go buf limit (pos + 1) fuel res2 (shift + 7)
    else .error "VarUInt too long or truncated"

/-- `core_shared._read_varuint_from(mm, pos, limit)`. -/
def read_varuint_from (buf : Bytes) (pos limit : Nat) :
    Except String (Nat × Nat) :=
  read_varuint_go buf limit pos 5 0 0

end core_shared

namespace rsd_core_crc_plus

/-- Loop of `rsd_core_crc_plus._read_varuint_from`: same wire format but
    the `shift > 35` exit is tested only after the byte has been
    consumed, so up to six bytes are read and no 32 bit cap is applied.
    At most 6 iterations happen (the `break` fires once `shift + 7`
    exceeds 35), so the recursion is structural on a `fuel` counter
    started at 6; `fuel = 0` is unreachable from the entry point. -/
def read_varuint_go (buf : Bytes) (limit : Nat) :
    Nat → Nat → Nat → Nat → Except String (Nat × Nat)
  | _, 0, _, _ => .error "VarUInt overflow"
  | pos, fuel + 1, res, shift =>
    if pos < limit then
      let b := byteAt buf pos
      let res2 := res ||| ((b &&& 0x7F) <<< shift)
      if b &&& 0x80 = 0 then .ok (res2, pos + 1)
      else if 35 < shift + 7 then .error "VarUInt overflow"
      else read_varuint_go buf limit (pos + 1) fuel res2 (shift + 7)
    else .error "VarUInt overflow"

/-- `rsd_core_crc_plus._read_varuint_from(mv, pos, limit)`. -/
def read_varuint_from (buf : Bytes) (pos limit : Nat) :
    Except String (Nat × Nat) :=
  read_varuint_go buf limit pos 6 0 0

end rsd_core_crc_plus

/-- Reference value of a LEB128 byte group list: 7 payload bits per
    byte, least significant group first. -/
def lebVal : Bytes → Nat
  | [] => 0
  | b :: rest => (b &&& 0x7F) + 128 * lebVal rest

/-- `for _ in range(n)` iteration of a state transformer. -/
def iterN {α : Type _} (f : α → α) : Nat → α → α
  | 0, a => a
  | n + 1, a => iterN f n (f a)

namespace core_shared

/-- One shift-XOR step of the inner `for _ in range(8)` loop of
    `_crc32_custom`. -/
def crc_shift_once (crc : Nat) : Nat :=
  if crc &&& 0x80000000 ≠ 0 then ((crc <<< 1) ^^^ 0x04C11DB7) &&& 0xFFFFFFFF
  else (crc <<< 1) &&& 0xFFFFFFFF

/-- Body of the `for b in data` loop of `_crc32_custom`. -/
def crc_absorb_byte (crc b : Nat) : Nat :=
  iterN crc_shift_once 8 (crc ^^^ ((b <<< 24) &&& 0xFFFFFFFF))

/-- One step of the bit-reverse loop of `_crc32_custom`
    (state `(rev, tmp)`). -/
def crc_rev_once (rt : Nat × Nat) : Nat × Nat :=
  ((rt.1 <<< 1) ||| (rt.2 &&& 1), rt.2 >>> 1)

/-- `core_shared._crc32_custom` (the byte-for-byte identical copy in
    `rsd_core_crc_plus._crc32_custom` is embedded by this same
    definition). -/
def crc32_custom (data : Bytes) : Nat :=
  let crc := data.foldl crc_absorb_byte 0
  let rev := (iterN crc_rev_once 32 (0, crc)).1
  (rev ^^^ 0xFFFFFFFF) &&& 0xFFFFFFFF

end core_shared

namespace crcspec

/-- Modelled from the spec words of the checksum reference: one MSB-first
    shift step, XORing the polynomial whenever the top bit was set before
    the shift. -/
def step (crc : Nat) : Nat :=
  let shifted := (2 * crc) % 4294967296
  if crc.testBit 31 then shifted ^^^ 0x04C11DB7 else shifted

/-- Spec reference: a byte is XORed into the top 8 bits, then 8 shift
    steps are applied. -/
def absorb (crc b : Nat) : Nat := step^[8] (crc ^^^ b % 256 * 16777216)

/-- Spec reference: reversal of the 32 low bits (bit `i` of the input
    becomes bit `31 - i` of the result). -/
def bit_reverse32 (x : Nat) : Nat :=
  ∑ i ∈ Finset.range 32, (x.testBit i).toNat * 2 ^ (31 - i)

/-- Spec reference for the whole checksum: absorb every byte starting
    from accumulator 0, bit-reverse the accumulator and XOR it with
    `0xFFFFFFFF`. -/
def crc32_ref (data : Bytes) : Nat :=
  bit_reverse32 (data.foldl absorb 0) ^^^ 0xFFFFFFFF

end crcspec




/-- Python dict with `int` keys holding raw byte values, as built by the
    varstruct parsers (`fields[fn] = ...`). -/
abbrev Fields := List (Nat × Bytes)

/-- `fields[fn] = v` — dict assignment: later fields with the same id
    overwrite earlier ones. -/
def setField (fs : Fields) (k : Nat) (v : Bytes) : Fields :=
  (k, v) :: fs.filter (fun p => p.1 ≠ k)

/-- `fields.get(k)`. -/
def getField (fs : Fields) (k : Nat) : Option Bytes :=
  (fs.find? (fun p => p.1 == k)).map (fun p => p.2)

/-- `fields.get(k, d)`. -/
def getFieldD (fs : Fields) (k : Nat) (d : Bytes) : Bytes :=
  (getField fs k).getD d

/-- `crc_mode` argument of the varstruct parsers; the two values the
    repository ever passes. -/
inductive CrcMode
  | strict
  | warn
deriving DecidableEq

/-- `core_shared._mapunit_to_deg` and the identical copies in
    `rsd_core_crc_plus` and `rsd_core_signature`: `x*(360.0/float(1<<32))`.
    360/2^32 = 45/2^29 is an exact double, and the product with any 32 bit
    integer is below 2^37 with denominator 2^29, again exact, so `Rat`
    reproduces the Python float bit for bit. -/
def mapunit_to_deg (x : Int) : Rat := (x : Rat) * (360 / 4294967296)

/-- `rsd_core_crc_plus._zigzag_to_int32(u) = (u >> 1) ^ (-(u & 1))` and the
    zigzag step of `core_shared._read_varint_from`: XOR with the all-ones
    pattern -1 is bitwise complement `x ↦ -(x+1)`, XOR with 0 is the
    identity. -/
def zigzag_to_int32 (u : Nat) : Int :=
  if u &&& 1 = 1 then -((u >>> 1 : Nat) + 1) else (u >>> 1 : Nat)

namespace core_shared

/-- Loop of `core_shared._read_varint_from(buf, pos, limit)`; the buffer
    is indexed `buf[i - pos]` in the source because its callers hand it a
    segment that starts at `pos`.  Same 6-iteration bound as the plus
    varuint reader, hence fuel 6. -/
def read_varint_go (buf : Bytes) (pos limit : Nat) :
    Nat → Nat → Nat → Nat → Except String (Int × Nat)
  | _, 0, _, _ => .error "VarInt overflow"
  | i, fuel + 1, res, shift =>
    if i < limit then
      let b := byteAt buf (i - pos)
      let res2 := res ||| ((b &&& 0x7F) <<< shift)
      if b &&& 0x80 = 0 then .ok (zigzag_to_int32 res2, i + 1)
      else if 35 < shift + 7 then .error "VarInt overflow"
      else read_varint_go buf pos limit (i + 1) fuel res2 (shift + 7)
    else .error "VarInt overflow"

/-- `core_shared._read_varint_from`. -/
def read_varint_from (buf : Bytes) (pos limit : Nat) :
    Except String (Int × Nat) :=
  read_varint_go buf pos limit pos 6 0 0

/-- Field loop of `core_shared._parse_varstruct` (`for _ in range(n)`),
    recursion on the remaining field count. -/
def parse_fields (buf : Bytes) (limit : Nat) :
    Nat → Nat → Fields → Except String (Fields × Nat)
  | 0, pos, fields => .ok (fields, pos)
  | n + 1, pos, fields =>
    match read_varuint_from buf pos limit with
    | .error e => .error e
    | .ok (key, pos1) =>
      let fn := key >>> 3
      let lc := key &&& 7
      match (if lc = 7 then
              match read_varuint_from buf pos1 limit with
              | .error e => .error e
              | .ok (vlen, pos2) =>
                if limit - pos2 < vlen then .error "Varstruct value exceeds file size"
                else .ok (vlen, pos2)
            else .ok (lc, pos1) : Except String (Nat × Nat)) with
      | .error e => .error e
      | .ok (vlen, pos2) =>
        let endv := pos2 + vlen
        if limit < endv then .error "Varstruct value exceeds file size"
        else parse_fields buf limit n endv (setField fields fn (pySlice buf pos2 endv))

/-- `core_shared._parse_varstruct(mm, pos, limit, crc_mode)`.

    The field-count `try/except` of the source re-raises only when
    `crc_mode == 'warn'`: in strict mode a failing count read leaves `n`
    unbound and `range(n)` raises `NameError`, while a count above 50 is
    swallowed and the fields are decoded anyway. -/
def parse_varstruct (buf : Bytes) (pos limit : Nat) (crc_mode : CrcMode) :
    Except String (Fields × Nat) :=
  let start := pos
  let pos0 := if pos + 4 ≤ limit ∧ readU32 buf pos = MAGIC_REC_HDR then pos + 4 else pos
  match read_varuint_from buf pos0 limit with
  | .error e =>
    .error (if crc_mode = CrcMode.warn then e else "NameError: name n is not defined")
  | .ok (n, pos1) =>
    if 50 < n ∧ crc_mode = CrcMode.warn then .error "Unreasonable field count"
    else
      match parse_fields buf limit n pos1 [] with
      | .error e => .error e
      | .ok (fields, pos2) =>
        if limit < pos2 + 4 then .error "Truncated before CRC"
        else
          let crc_read := readU32 buf pos2
          let data := pySlice buf start pos2
          if crc_mode = CrcMode.strict ∧ crc32_custom data ≠ crc_read then
            .error "CRC mismatch"
          else .ok (fields, pos2 + 4)

end core_shared

namespace rsd_core_crc_plus

/-- `rsd_core_crc_plus._zigzag_to_int32` composed varint reader
    (`_read_varint_from`). -/
def read_varint_from (buf : Bytes) (pos limit : Nat) :
    Except String (Int × Nat) :=
  match read_varuint_from buf pos limit with
  | .error e => .error e
  | .ok (u, pos1) => .ok (zigzag_to_int32 u, pos1)

/-- Safe unpacker `_u32`: zero when fewer than 4 bytes. -/
def u32D (b : Bytes) : Nat :=
  if 4 ≤ b.length then readU32 b 0 else 0

/-- Safe unpacker `_u16`: zero when fewer than 2 bytes. -/
def u16D (b : Bytes) : Nat :=
  if 2 ≤ b.length then readU16 b 0 else 0

/-- Safe unpacker `_i32`: zero when fewer than 4 bytes. -/
def i32D (b : Bytes) : Int :=
  if 4 ≤ b.length then readI32 b 0 else 0

/-- Field loop of `rsd_core_crc_plus._parse_varstruct`. -/
def parse_fields (buf : Bytes) (limit : Nat) :
    Nat → Nat → Fields → Except String (Fields × Nat)
  | 0, pos, fields => .ok (fields, pos)
  | n + 1, pos, fields =>
    match read_varuint_from buf pos limit with
    | .error e => .error e
    | .ok (key, pos1) =>
      let fn := key >>> 3
      let lc := key &&& 7
      match (if lc = 7 then
              match read_varuint_from buf pos1 limit with
              | .error e => .error e
              | .ok (vlen, pos2) =>
                if limit < pos2 + vlen then .error "Value exceeds buffer"
                else .ok (vlen, pos2)
            else
              if limit < pos1 + lc then .error "Fixed-length value overruns buffer"
              else .ok (lc, pos1) : Except String (Nat × Nat)) with
      | .error e => .error e
      | .ok (vlen, pos2) =>
        let endv := pos2 + vlen
        parse_fields buf limit n endv (setField fields fn (pySlice buf pos2 endv))

/-- `rsd_core_crc_plus._parse_varstruct(mv, pos, limit, crc_mode)`: no
    magic skip, field-count bound 20000, CRC over `mv[start:pos]`. -/
def parse_varstruct (buf : Bytes) (pos limit : Nat) (crc_mode : CrcMode) :
    Except String (Fields × Nat) :=
  let start := pos
  match read_varuint_from buf pos limit with
  | .error e => .error e
  | .ok (n, pos1) =>
    if 20000 < n then .error "Unreasonable field count"
    else
      match parse_fields buf limit n pos1 [] with
      | .error e => .error e
      | .ok (fields, pos2) =>
        if limit < pos2 + 4 then .error "Truncated before CRC"
        else
          let crc_read := readU32 buf pos2
          let data := pySlice buf start pos2
          if crc_mode = CrcMode.strict ∧ core_shared.crc32_custom data ≠ crc_read then
            .error "CRC mismatch"
          else .ok (fields, pos2 + 4)

end rsd_core_crc_plus

/-- `bytes.find(pat, s, e)` — first `i ≥ s` with `i + len(pat) ≤ e` and a
    match, else -1; fuel is the number of remaining candidate positions
    plus one. -/
def find_bytes_go (buf pat : Bytes) (e : Nat) : Nat → Nat → Int
  | 0, _ => -1
  | fuel + 1, i =>
    if i + pat.length ≤ e then
      if pySlice buf i (i + pat.length) = pat then (i : Int)
      else find_bytes_go buf pat e fuel (i + 1)
    else -1

/-- `mm.find(pat, s, e)` (with `s`, `e` already clamped to the buffer by
    the caller; positions past the end of the buffer compare a short
    slice and never match, as in Python). -/
def find_bytes (buf pat : Bytes) (s e : Nat) : Int :=
  find_bytes_go buf pat e (e + 1 - s) s

/-- Default chunk of `core_shared.find_magic`: 32 MiB. -/
def FIND_CHUNK : Nat := 33554432

namespace core_shared

/-- Chunk loop of `find_magic` (`while s < end`); one fuel unit per
    chunk, enough fuel for any positive chunk size. -/
def find_magic_go (buf pat : Bytes) (endp chunk : Nat) : Nat → Nat → Int
  | 0, _ => -1
  | fuel + 1, s =>
    if s < endp then
      let e := min endp (s + chunk)
      let idx := find_bytes buf pat s e
      if idx ≠ -1 then idx else find_magic_go buf pat endp chunk fuel e
    else -1

/-- `core_shared.find_magic(mm, magic_bytes, start, end, chunk)`
    (progress emission dropped; `chunk` defaults to `FIND_CHUNK` at call
    sites). -/
def find_magic (buf pat : Bytes) (start endp chunk : Nat) : Int :=
  let endp := min buf.length endp
  if endp ≤ start then -1
  else if endp - start ≤ chunk then find_bytes buf pat start endp
  else find_magic_go buf pat endp chunk (endp + 1 - start) start

end core_shared

namespace rsd_core_signature

/-- Latitude decoded at position `i`:
    `_mapunit_to_deg(struct.unpack_from("<i", data, i)[0])`. -/
def pair_lat (data : Bytes) (i : Nat) : Rat := mapunit_to_deg (readI32 data i)

/-- Longitude decoded at position `i + 4`. -/
def pair_lon (data : Bytes) (i : Nat) : Rat := mapunit_to_deg (readI32 data (i + 4))

/-- `30.0 <= lat <= 60.0 and -110.0 <= lon <= -50.0`. -/
def in_box (data : Bytes) (i : Nat) : Bool :=
  decide (30 ≤ pair_lat data i ∧ pair_lat data i ≤ 60 ∧
    -110 ≤ pair_lon data i ∧ pair_lon data i ≤ -50)

/-- Magic-occurrence collection loop of `parse_file`
    (`j = data.find(magic, i)`, restart at `j + 1`). -/
def find_offsets_go (data : Bytes) : Nat → Nat → List Nat
  | 0, _ => []
  | fuel + 1, i =>
    let j := find_bytes data MAGIC_REC_HDR_LE i data.length
    if j < 0 then []
    else j.toNat :: find_offsets_go data fuel (j.toNat + 1)

/-- All header-magic occurrences, in increasing order. -/
def find_offsets (data : Bytes) : List Nat :=
  find_offsets_go data (data.length + 1) 0

/-- Inner `while i+8 <= b` scan of one header window; the first plausible
    pair is appended and the loop breaks. -/
def scan_window_go (data : Bytes) (b : Nat) : Nat → Nat → Option (Rat × Rat)
  | 0, _ => none
  | fuel + 1, i =>
    if i + 8 ≤ b then
      if in_box data i then some (pair_lat data i, pair_lon data i)
      else scan_window_go data b fuel (i + 4)
    else none

/-- Window scan for the magic occurrence at `h`:
    `a = h + 64`, `b = min(len(data), h + 512)`. -/
def scan_window (data : Bytes) (h : Nat) : Option (Rat × Rat) :=
  let a := h + 64
  let b := min data.length (h + 512)
  scan_window_go data b (b + 1 - a) a

/-- Coordinate list produced by `rsd_core_signature.parse_file` (the CSV
    rows; the returned `points` count is its length). -/
def parse_file (data : Bytes) : List (Rat × Rat) :=
  (find_offsets data).filterMap (scan_window data)

end rsd_core_signature

namespace one_test

/-- Outcome of `run_strict_with_timeout`: `some (rows, rows_ss, rows_dv)`
    when the worker returned `ok`, `none` on failure or timeout. -/
abbrev StrictOutcome := Option (Nat × Nat × Nat)

/-- `rows_total` computed from the strict summary in `main`
    (`rows + rows_ss + rows_dv`, 0 when the strict pass failed or timed
    out, and the strict pass is not even run under `--force-heuristic`). -/
def strict_rows_total : StrictOutcome → Nat
  | some (r, ss, dv) => r + ss + dv
  | none => 0

/-- Decision logic of `one_test.main`: returns whether the heuristic
    engine runs and the final `rows_total`, given the strict outcome and
    the point count the heuristic pass would report. -/
def main_decision (force_heuristic : Bool) (strict_res : StrictOutcome)
    (points : Nat) : Bool × Nat :=
  let rows_total := if force_heuristic then 0 else strict_rows_total strict_res
  if force_heuristic || rows_total < 10 then (true, max rows_total points)
  else (false, rows_total)

end one_test

namespace rsd_core_crc_plus

/-- `SCAN_STEP` default (no `parsing_rules.json` in the repository). -/
def SCAN_STEP : Nat := 1

/-- `RSDRecord` of `rsd_core_crc_plus`. -/
structure RSDRecord where
  ofs : Nat
  seq : Nat
  time_ms : Nat
  data_size : Nat
  lat : Option Rat
  lon : Option Rat
  depth_m : Option Rat
deriving DecidableEq, Repr

/-- `PAD_SKIP` loop: skip 2-byte `A1 B2` / `B2 A1` padding pairs. -/
def pad_skip_go (buf : Bytes) (size : Nat) : Nat → Nat → Nat
  | 0, pos_end => pos_end
  | fuel + 1, pos_end =>
    if pos_end + 1 < size then
      let b0 := byteAt buf pos_end
      let b1 := byteAt buf (pos_end + 1)
      if (b0 = 0xA1 ∧ b1 = 0xB2) ∨ (b0 = 0xB2 ∧ b1 = 0xA1) then
        pad_skip_go buf size fuel (pos_end + 2)
      else pos_end
    else pos_end

/-- Depth decode of `build_rows_and_assets`: zig-zag varint over the raw
    bytes of body field 1, divided by 1000; failures leave depth absent. -/
def decode_depth (v : Bytes) : Option Rat :=
  if 0 < v.length then
    match read_varint_from v 0 v.length with
    | .ok (d, _) => some ((d : Rat) / 1000)
    | .error _ => none
  else none

/-- Scan loop of `rsd_core_crc_plus.build_rows_and_assets`
    (`while i <= end` with `end = size - 4`, i.e. `i + 4 <= size`).
    One fuel unit per iteration; every iteration advances `i`, so
    `size + 1` fuel is enough from the entry point. -/
def build_rows_go (buf : Bytes) (crc_mode : CrcMode) :
    Nat → Nat → List RSDRecord → List RSDRecord
  | 0, _, recs => recs
  | fuel + 1, i, recs =>
    let size := buf.length
    if i + 4 ≤ size then
      if pySlice buf i (i + 4) ≠ MAGIC_REC_HDR_LE then
        build_rows_go buf crc_mode fuel (i + SCAN_STEP) recs
      else
        match parse_varstruct buf (i + 4) size crc_mode with
        | .error _ => build_rows_go buf crc_mode fuel (i + SCAN_STEP) recs
        | .ok (hdr, pos) =>
          let seq := u32D (getFieldD hdr 2 [])
          let t_ms := u32D (getFieldD hdr 5 [])
          let data_size := u16D (getFieldD hdr 4 [])
          let body_start := pos
          let body : Fields :=
            match parse_varstruct buf pos size crc_mode with
            | .ok (b, _) => b
            | .error _ => []
          let lat := (getField body 9).map (fun v => mapunit_to_deg (i32D v))
          let lon := (getField body 10).map (fun v => mapunit_to_deg (i32D v))
          let depth := (getField body 1).bind decode_depth
          let recs2 := recs ++ [⟨i, seq, t_ms, data_size, lat, lon, depth⟩]
          let pos_end0 := body_start + max 0 data_size
          let pos_end1 :=
            if pos_end0 + 4 ≤ size ∧ pySlice buf pos_end0 (pos_end0 + 4) = MAGIC_REC_TRL_PLUS_LE
            then pos_end0 + 4 else pos_end0
          let pos_end2 := pad_skip_go buf size size pos_end1
          build_rows_go buf crc_mode fuel pos_end2 recs2
    else recs

/-- `rsd_core_crc_plus.build_rows_and_assets` (record list only; CSV
    serialization and the summary dict are I/O). -/
def build_rows_and_assets (buf : Bytes) (crc_mode : CrcMode) : List RSDRecord :=
  build_rows_go buf crc_mode (buf.length + 1) 0 []

end rsd_core_crc_plus

/-- Demonstration buffer for the body-failure path of the strict core:
    header magic at 0, an empty header varstruct (field count 0 and its
    CRC bytes) parsing to `([], 9)`, and a lone `0xFF` at offset 9 on
    which the body varstruct parse fails. -/
def c10_demo : Bytes := [0x86, 0xDA, 0xE9, 0xB7, 0x00, 0, 0, 0, 0, 0xFF]


/-- Counterexample buffer for the signature engine: one header magic at
    offset 0, a plausible pair at offset 8 (inside the claimed
    450 byte window but before the actual `h+64` scan start), and two
    plausible pairs at offsets 64 and 72 inside the scanned window. -/
def sig_demo : Bytes :=
  [0x86, 0xDA, 0xE9, 0xB7] ++ List.replicate 4 0 ++ [0, 0, 16, 32] ++ [0, 0, 0, 192]
    ++ List.replicate 48 0 ++ [0, 0, 0, 32] ++ [0, 0, 0, 192] ++ [0, 0, 240, 31] ++ [0, 0, 0, 192]

/-- Header-failure buffer for C5: magic at 0 followed by the field
    count 51, which the header pre-validation rejects. -/
def ng_demo_header_fail : Bytes := [0x86, 0xDA, 0xE9, 0xB7, 0x33, 0, 0, 0, 0]

/-- Body-failure buffer for C5: a header varstruct carrying field 0 =
    magic and field 4 = data size 32, followed by a body whose field
    count 51 fails. -/
def ng_demo_body_fail : Bytes :=
  [0x86, 0xDA, 0xE9, 0xB7, 0x02, 0x04, 0x86, 0xDA, 0xE9, 0xB7, 0x22, 0x20, 0x00,
    0, 0, 0, 0, 0x33] ++ List.replicate 31 0

/-- Buffer for the C8 counterexample: a record whose body field 9 is the
    map unit `0x7FFFFFFF`. -/
def c8_demo : Bytes :=
  [0x86, 0xDA, 0xE9, 0xB7, 0x00, 0, 0, 0, 0, 0x01, 0x4C, 0xFF, 0xFF, 0xFF, 0x7F, 0, 0, 0, 0]

/-- Buffer for the classic-engine side of the C8 witness: one complete
    record (header with field 0 = magic and field 4 = data size 10, body
    with field 9 = map unit `0x7FFFFFFF`, both with valid CRCs, trailer
    `0xD9264B7C` with chunk size 39). -/
def c8_classic_demo : Bytes :=
  [0x86, 0xDA, 0xE9, 0xB7, 0x02, 0x04, 0x86, 0xDA, 0xE9, 0xB7, 0x22, 0x0A, 0x00,
   0xA9, 0xA4, 0x34, 0xB5, 0x01, 0x4C, 0xFF, 0xFF, 0xFF, 0x7F, 0xB4, 0x10, 0x12, 0x93,
   0x7C, 0x4B, 0x26, 0xD9, 0x27, 0x00, 0x00, 0x00, 0, 0, 0, 0]


/-- `_decode_body_fields` of `core_shared` (used by the nextgen engine):
    only custom fields with id at least 20 are kept.  The source then
    renders each value as a float32 or a hex string purely for CSV
    output; the raw id/bytes pairs are kept here since the rendering is
    presentation and involves IEEE floats. -/
def decode_body_fields_shared (body : Fields) : Fields :=
  body.filter (fun p => decide (20 ≤ p.1))

namespace engine_nextgen_syncfirst

/-- `RSDRecord` of `engine_nextgen_syncfirst`.  The nine `<f>` fields
    are raw little-endian float32 bytes: the engine merely reinterprets
    the bytes, and IEEE decoding is outside this embedding; every other
    field is exact. -/
structure NGRecord where
  ofs : Nat
  channel_id : Nat
  seq : Nat
  time_ms : Nat
  data_size : Nat
  lat : Bytes
  lon : Bytes
  depth_m : Bytes
  sample_cnt : Nat
  sonar_ofs : Int
  sonar_size : Nat
  beam_deg : Bytes
  pitch_deg : Bytes
  roll_deg : Bytes
  heave_m : Bytes
  tx_ofs_m : Bytes
  rx_ofs_m : Bytes
  color_id : Nat
  extras : Fields
deriving DecidableEq, Repr

/-- `body.get(k, b"\x00"*4)[:4]` fed to `struct.unpack("<f"/"<I", ...)`:
    fewer than 4 bytes raise `struct.error`, modelled as `none`. -/
def take4 (fs : Fields) (k : Nat) : Option Bytes :=
  let v := (getFieldD fs k [0, 0, 0, 0]).take 4
  if v.length < 4 then none else some v

/-- `body.get(k, b"\x00\x00")[:2]` fed to `struct.unpack("<H", ...)`. -/
def take2 (fs : Fields) (k : Nat) : Option Bytes :=
  let v := (getFieldD fs k [0, 0]).take 2
  if v.length < 2 then none else some v

/-- Header stage of `_iter_records` (lines after a magic was found at
    `pos_magic`): pre-validation of the field count against 50, full
    varstruct parse in `warn` mode, embedded-magic check on field 0, and
    extraction of `seq`, `time_ms` and a plausible `data_size`.  Every
    failure path of the source ends in `continue` with
    `pos = pos_magic + 4`; `none` stands for all of them. -/
def header_stage (buf : Bytes) (pos_magic limit : Nat) :
    Option (Nat × Nat × Nat × Nat) :=
  match core_shared.read_varuint_from buf (pos_magic + 4) limit with
  | .error _ => none
  | .ok (n, _) =>
    if 50 < n then none
    else
      match core_shared.parse_varstruct buf pos_magic limit CrcMode.warn with
      | .error _ => none
      | .ok (hdr, body_start) =>
        if hdr.isEmpty then none
        else
          match take4 hdr 0 with
          | none => none
          | some f0 =>
            if readU32 f0 0 ≠ MAGIC_REC_HDR then none
            else
              match take4 hdr 2, take4 hdr 5 with
              | some f2, some f5 =>
                let raw_size := (getFieldD hdr 4 [0, 0]).take 2
                if raw_size.length = 0 then none
                else if raw_size.length < 2 then none
                else
                  let data_sz := readU16 raw_size 0
                  if data_sz < 32 ∨ 65535 < data_sz then none
                  else some (body_start, readU32 f2 0, readU32 f5 0, data_sz)
              | _, _ => none

/-- Body stage of `_iter_records`: varstruct parse of
    `[body_start, body_start + data_sz)` in `warn` mode, emptiness check
    and field extraction; every failure resumes at
    `body_start + data_sz`. -/
def body_stage (buf : Bytes) (pos_magic seq time_ms body_start data_sz limit : Nat) :
    Option NGRecord :=
  match core_shared.parse_varstruct buf body_start (body_start + data_sz) CrcMode.warn with
  | .error _ => none
  | .ok (body, _) =>
    if body.isEmpty then none
    else
      match take4 body 6, take4 body 7, take4 body 8, take4 body 9, take4 body 10,
        take4 body 11, take4 body 12, take4 body 13, take4 body 14,
        take2 body 15, take2 body 16, take2 body 17 with
      | some lat, some lon, some depth, some beam, some pitch, some roll, some heave,
        some txo, some rxo, some ch, some col, some smp =>
        let sample_cnt := readU16 smp 0
        some ⟨pos_magic, readU16 ch 0, seq, time_ms, data_sz, lat, lon, depth,
          sample_cnt, (body_start : Int) + (data_sz : Int) - (sample_cnt : Int) * 2,
          sample_cnt * 2, beam, pitch, roll, heave, txo, rxo, readU16 col 0,
          decode_body_fields_shared body⟩
      | _, _, _, _, _, _, _, _, _, _, _, _ => none

/-- Outcome of one iteration of the `while pos < limit` loop. -/
inductive Step where
  | halt
  | skip (next : Nat)
  | emit (r : NGRecord) (next : Nat)
deriving Repr

/-- One iteration of `_iter_records`: chunked magic search, false-positive
    look-ahead, header stage (failure: 4-byte skip past the magic), body
    bound check (failure: terminate), body stage (failure: skip to
    `body_start + data_sz`). -/
def step (buf : Bytes) (pos limit : Nat) : Step :=
  let m := core_shared.find_magic buf MAGIC_REC_HDR_LE pos limit FIND_CHUNK
  if m < 0 then .halt
  else
    let pos_magic := m.toNat
    let next4 := pySlice buf (pos_magic + 4) (pos_magic + 8)
    if next4.length = 4 ∧ readU32 next4 0 = MAGIC_REC_HDR then .skip (pos_magic + 4)
    else
      match header_stage buf pos_magic limit with
      | none => .skip (pos_magic + 4)
      | some (body_start, seq, time_ms, data_sz) =>
        if limit < body_start + data_sz then .halt
        else
          match body_stage buf pos_magic seq time_ms body_start data_sz limit with
          | none => .skip (body_start + data_sz)
          | some r => .emit r (body_start + data_sz)

/-- The `while pos < limit` loop of `_iter_records`; `count` and the
    optional record cap reproduce `if limit_records and count >
    limit_records: break` (a cap of 0 is falsy in Python and means no
    cap).  Fuel is one unit per iteration; every iteration advances
    `pos`, so `limit + 1` units suffice from any start. -/
def iter_go (buf : Bytes) (limit : Nat) (cap : Option Nat) :
    Nat → Nat → Nat → List NGRecord
  | 0, _, _ => []
  | fuel + 1, pos, count =>
    if pos < limit then
      match step buf pos limit with
      | .halt => []
      | .skip next => iter_go buf limit cap fuel next count
      | .emit r next =>
        let count2 := count + 1
        match cap with
        | some c =>
          if c ≠ 0 ∧ c < count2 then []
          else r :: iter_go buf limit cap fuel next count2
        | none => r :: iter_go buf limit cap fuel next count2
    else []

/-- `engine_nextgen_syncfirst._iter_records(mm, start, limit, log, cap)`
    as the list of yielded records. -/
def iter_records (buf : Bytes) (start limit : Nat) (cap : Option Nat) :
    List NGRecord :=
  iter_go buf limit cap (limit + 1) start 0

end engine_nextgen_syncfirst

namespace engine_classic_varstruct

/-- `int.from_bytes(b[:2], "little", signed=True)`. -/
def readI16 (b : Bytes) : Int :=
  let u := readU16 b 0
  if u < 32768 then (u : Int) else (u : Int) - 65536

/-- `b[:4].ljust(4, b"\x00")` then `int.from_bytes(..., "little")`. -/
def u32ljust (b : Bytes) : Nat := readU32 (b.take 4 ++ List.replicate (4 - b.length) 0) 0

/-- `RSDRecord` of `engine_classic_varstruct`.  `tx_ofs_m`/`rx_ofs_m`
    are raw float32 bytes (IEEE decode not modelled); all other numeric
    fields are exact. -/
structure ClassicRecord where
  ofs : Nat
  channel_id : Option Nat
  seq : Nat
  time_ms : Nat
  data_size : Nat
  lat : Option Rat
  lon : Option Rat
  depth_m : Option Rat
  sample_cnt : Option Nat
  sonar_ofs : Option Nat
  sonar_size : Option Nat
  beam_deg : Option Rat
  pitch_deg : Option Rat
  roll_deg : Option Rat
  heave_m : Option Rat
  tx_ofs_m : Option Bytes
  rx_ofs_m : Option Bytes
  color_id : Option Nat
  extras : Fields
deriving DecidableEq, Repr

/-- `_decode_body_fields` of `engine_classic_varstruct`: every unknown
    field id is kept (ids 0, 1, 7, 9-17 are skipped); the int/hex
    rendering of the values is CSV presentation and the raw bytes are
    kept. -/
def decode_body_fields (body : Fields) : Fields :=
  body.filter (fun p =>
    decide (p.1 ∉ ([0, 1, 7, 9, 10, 11, 12, 13, 14, 15, 16, 17] : List Nat)))

/-- Header parse of the classic engine (strict CRC), including the
    `hdr.get(0, ...)` magic confirmation whose `struct.error` on a short
    field 0 is caught by the surrounding `except`. -/
def header_block (buf : Bytes) (pos_magic limit : Nat) : Option (Fields × Nat) :=
  match core_shared.parse_varstruct buf pos_magic limit CrcMode.strict with
  | .error _ => none
  | .ok (hdr, body_start) =>
    match engine_nextgen_syncfirst.take4 hdr 0 with
    | none => none
    | some f0 =>
      if readU32 f0 0 = MAGIC_REC_HDR then some (hdr, body_start) else none

/-- Field extraction of the classic body (`lat`/`lon` from map units,
    depth from a zig-zag varint read out of `mm` at `body_start`, int16
    milli-units for the attitude angles, raw float32 bytes for the
    transducer offsets). -/
def body_record (buf : Bytes) (body : Fields) (body_start : Nat) : ClassicRecord → ClassicRecord :=
  fun r =>
  { r with
    channel_id := (getField body 0).map u32ljust
    lat := (getField body 9).bind (fun v =>
      if 4 ≤ v.length then some (mapunit_to_deg (readI32 v 0)) else none)
    lon := (getField body 10).bind (fun v =>
      if 4 ≤ v.length then some (mapunit_to_deg (readI32 v 0)) else none)
    depth_m := (getField body 1).bind (fun v =>
      match core_shared.read_varint_from (pySlice buf body_start (body_start + v.length))
          0 v.length with
      | .ok (d, _) => some ((d : Rat) / 1000)
      | .error _ => none)
    sample_cnt := (getField body 7).map u32ljust
    beam_deg := (getField body 11).bind (fun v =>
      if 2 ≤ v.length then some ((readI16 v : Rat) / 1000) else none)
    pitch_deg := (getField body 12).bind (fun v =>
      if 2 ≤ v.length then some ((readI16 v : Rat) / 1000) else none)
    roll_deg := (getField body 13).bind (fun v =>
      if 2 ≤ v.length then some ((readI16 v : Rat) / 1000) else none)
    heave_m := (getField body 14).bind (fun v =>
      if 2 ≤ v.length then some ((readI16 v : Rat) / 1000) else none)
    tx_ofs_m := (getField body 15).bind (fun v =>
      if 4 ≤ v.length then some (v.take 4) else none)
    rx_ofs_m := (getField body 16).bind (fun v =>
      if 4 ≤ v.length then some (v.take 4) else none)
    color_id := (getField body 17).bind (fun v =>
      if 1 ≤ v.length then some (byteAt v 0) else none)
    extras := decode_body_fields body }

/-- Outcome of one iteration of the classic `while pos < limit` loop.
    `abort` is the uncaught `struct.error` of the `seq`/`time_ms`/
    `data_size` unpacks that sit outside every `try` and kill the whole
    generator. -/
inductive Step where
  | halt
  | abort
  | skip (next : Nat)
  | emit (r : ClassicRecord) (next : Nat)
deriving Repr

/-- One iteration of `engine_classic_varstruct._iter_records`. -/
def step (buf : Bytes) (pos limit : Nat) : Step :=
  let m := find_bytes buf MAGIC_REC_HDR_LE pos limit
  if m < 0 then .halt
  else
    let pos_magic := m.toNat
    match header_block buf pos_magic limit with
    | none => .skip (pos_magic + 4)
    | some (hdr, body_start) =>
      match engine_nextgen_syncfirst.take4 hdr 2 with
      | none => .abort
      | some f2 =>
        match engine_nextgen_syncfirst.take4 hdr 5 with
        | none => .abort
        | some f5 =>
          let raw4 := (getFieldD hdr 4 [0, 0]).take 2
          let raw_size := if raw4.length = 0 then [0, 0] else raw4
          if raw_size.length < 2 then .abort
          else
            let seq := readU32 f2 0
            let time_ms := readU32 f5 0
            let data_sz := readU16 raw_size 0
            match core_shared.parse_varstruct buf body_start limit CrcMode.strict with
            | .error _ => .skip (pos_magic + 4)
            | .ok (body, body_end) =>
              let used := max 0 (body_end - body_start)
              let sonar_ofs := body_start + used
              let sonar_len := if 0 < data_sz then max 0 (data_sz - used) else 0
              let trailer_pos := body_start + data_sz
              if limit < trailer_pos + 12 then .halt
              else
                let tr_magic := readU32 buf trailer_pos
                let chunk_size := readU32 buf (trailer_pos + 4)
                if tr_magic ≠ MAGIC_REC_TRL ∨ chunk_size = 0 then .skip (pos_magic + 4)
                else
                  let base : ClassicRecord :=
                    ⟨pos_magic, none, seq, time_ms, data_sz, none, none, none, none,
                      (if 0 < sonar_len then some sonar_ofs else none),
                      (if 0 < sonar_len then some sonar_len else none),
                      none, none, none, none, none, none, none, []⟩
                  .emit (body_record buf body body_start base) (pos_magic + chunk_size)

/-- The classic `while pos < limit` loop; the cap check
    `if limit_records and count >= limit_records: break` runs after the
    yield. -/
def iter_go (buf : Bytes) (limit : Nat) (cap : Option Nat) :
    Nat → Nat → Nat → List ClassicRecord
  | 0, _, _ => []
  | fuel + 1, pos, count =>
    if pos < limit then
      match step buf pos limit with
      | .halt => []
      | .abort => []
      | .skip next => iter_go buf limit cap fuel next count
      | .emit r next =>
        let count2 := count + 1
        match cap with
        | some c =>
          if c ≠ 0 ∧ c ≤ count2 then [r]
          else r :: iter_go buf limit cap fuel next count2
        | none => r :: iter_go buf limit cap fuel next count2
    else []

/-- `engine_classic_varstruct._iter_records(mm, start, limit, log, cap)`
    as the list of yielded records. -/
def iter_records (buf : Bytes) (start limit : Nat) (cap : Option Nat) :
    List ClassicRecord :=
  iter_go buf limit cap (limit + 1) start 0

end engine_classic_varstruct

/-! Bridging lemmas between the source formulation (shift, mask, or)
    and the arithmetic formulation (multiplication, mod, sum). -/

theorem iterN_eq_iterate {α : Type _} (f : α → α) (n : Nat) (a : α) :
    iterN f n a = f^[n] a := by
  induction n generalizing a with
  | zero => rfl
  | succ n ih =>
    rw [iterN, ih]
    exact (Function.iterate_succ_apply f n a).symm

theorem iterN_congr {α : Type _} {f g : α → α} (h : ∀ a, f a = g a) (n : Nat) (a : α) :
    iterN f n a = iterN g n a := by
  induction n generalizing a with
  | zero => rfl
  | succ n ih => rw [iterN, iterN, h, ih]

theorem xor_mod_two_pow {p n : Nat} (hp : p < 2 ^ n) (x : Nat) :
    (x ^^^ p) % 2 ^ n = x % 2 ^ n ^^^ p := by
  apply Nat.eq_of_testBit_eq
  intro i
  by_cases hi : i < n
  · simp [Nat.testBit_mod_two_pow, hi]
  · have hpi : p.testBit i = false :=
      Nat.testBit_lt_two_pow (lt_of_lt_of_le hp (Nat.pow_le_pow_right (by omega) (by omega)))
    simp [Nat.testBit_mod_two_pow, hi, hpi]

theorem crc_step_eq (c : Nat) : core_shared.crc_shift_once c = crcspec.step c := by
  have hmask : (0xFFFFFFFF : Nat) = 2 ^ 32 - 1 := by norm_num
  have hshift : c <<< 1 = 2 * c := by rw [Nat.shiftLeft_eq]; ring
  have hbit : (c &&& 0x80000000 ≠ 0) ↔ c.testBit 31 = true := by
    have h31 : (0x80000000 : Nat) = 2 ^ 31 := by norm_num
    rw [h31, Nat.and_two_pow]
    cases h : c.testBit 31 <;> simp
  unfold core_shared.crc_shift_once crcspec.step
  by_cases h : c.testBit 31 = true
  · rw [if_pos (hbit.mpr h), if_pos h, hmask, Nat.and_pow_two_sub_one_eq_mod, hshift,
      xor_mod_two_pow (by norm_num)]
    norm_num
  · have h2 : ¬ (c &&& 0x80000000 ≠ 0) := fun hc => h (hbit.mp hc)
    rw [if_neg h2, if_neg h, hmask, Nat.and_pow_two_sub_one_eq_mod, hshift]

theorem crc_absorb_eq (c b : Nat) :
    core_shared.crc_absorb_byte c b = crcspec.absorb c b := by
  unfold core_shared.crc_absorb_byte crcspec.absorb
  have hb : (b <<< 24) &&& 0xFFFFFFFF = b % 256 * 16777216 := by
    have hmask : (0xFFFFFFFF : Nat) = 2 ^ 32 - 1 := by norm_num
    rw [hmask, Nat.and_pow_two_sub_one_eq_mod, Nat.shiftLeft_eq]
    have : (2 : Nat) ^ 32 = 2 ^ 8 * 2 ^ 24 := by norm_num
    rw [this, show (2:Nat) ^ 24 = 16777216 by norm_num, Nat.mul_mod_mul_right,
      show (2:Nat) ^ 8 = 256 by norm_num]
  rw [hb, iterN_congr crc_step_eq, iterN_eq_iterate]

theorem two_mul_or_low (a b : Nat) (hb : b < 2) : 2 * a ||| b = 2 * a + b := by
  have h := Nat.mul_add_lt_is_or (i := 1) (by omega : b < 2 ^ 1) a
  have h2 : (2 : Nat) ^ 1 = 2 := by norm_num
  rw [h2] at h
  exact h.symm

theorem and_one_eq_testBit (x i : Nat) : (x >>> i) &&& 1 = (x.testBit i).toNat := by
  rw [Nat.and_one_is_mod, Nat.testBit_to_div_mod, Nat.shiftRight_eq_div_pow]
  rcases Nat.mod_two_eq_zero_or_one (x / 2 ^ i) with h | h <;> simp [h]

theorem foldl_double (bit : Nat → Nat) :
    ∀ (n : Nat) (acc : Nat),
      (List.range n).foldl (fun a i => 2 * a + bit i) acc
        = acc * 2 ^ n + ∑ i ∈ Finset.range n, bit i * 2 ^ (n - 1 - i) := by
  intro n
  induction n with
  | zero => simp
  | succ n ih =>
    intro acc
    rw [List.range_succ, List.foldl_append, List.foldl_cons, List.foldl_nil, ih,
      Finset.sum_range_succ]
    have hsum : ∑ i ∈ Finset.range n, bit i * 2 ^ (n - 1 - i)
        = ∑ i ∈ Finset.range n, bit i * 2 ^ (n - 1 - i) := rfl
    have hstep : ∀ i ∈ Finset.range n,
        2 * (bit i * 2 ^ (n - 1 - i)) = bit i * 2 ^ (n + 1 - 1 - i) := by
      intro i hi
      have hi2 : i < n := Finset.mem_range.mp hi
      have : n + 1 - 1 - i = (n - 1 - i) + 1 := by omega
      rw [this, pow_succ]
      ring
    calc 2 * (acc * 2 ^ n + ∑ i ∈ Finset.range n, bit i * 2 ^ (n - 1 - i)) + bit n
        = acc * (2 ^ n * 2) + (∑ i ∈ Finset.range n, 2 * (bit i * 2 ^ (n - 1 - i)) + bit n) := by
          rw [← Finset.mul_sum]; ring
      _ = acc * 2 ^ (n + 1) + (∑ i ∈ Finset.range n, bit i * 2 ^ (n + 1 - 1 - i)
            + bit n * 2 ^ (n + 1 - 1 - n)) := by
          rw [Finset.sum_congr rfl hstep, pow_succ]
          have : n + 1 - 1 - n = 0 := by omega
          rw [this, pow_zero, mul_one]
      _ = acc * 2 ^ (n + 1) + (∑ i ∈ Finset.range n, bit i * 2 ^ (n + 1 - 1 - i)
            + bit n * 2 ^ (n + 1 - 1 - n)) := rfl

theorem rev_loop_eq :
    ∀ (n acc tmp : Nat),
      (iterN core_shared.crc_rev_once n (acc, tmp)).1
        = (List.range n).foldl (fun a i => 2 * a + ((tmp >>> i) &&& 1)) acc := by
  intro n
  induction n with
  | zero => intro acc tmp; rfl
  | succ n ih =>
    intro acc tmp
    rw [iterN]
    show (iterN core_shared.crc_rev_once n
        ((acc <<< 1) ||| (tmp &&& 1), tmp >>> 1)).1 = _
    rw [ih, List.range_succ_eq_map, List.foldl_cons, List.foldl_map]
    have hacc : (acc <<< 1) ||| (tmp &&& 1) = 2 * acc + (tmp &&& 1) := by
      have h1 : acc <<< 1 = 2 * acc := by rw [Nat.shiftLeft_eq]; ring
      have h2 : tmp &&& 1 < 2 := by rw [Nat.and_one_is_mod]; omega
      rw [h1, two_mul_or_low _ _ h2]
    have harg : ∀ (a i : Nat),
        2 * a + ((tmp >>> 1 >>> i) &&& 1) = 2 * a + ((tmp >>> (i + 1)) &&& 1) := by
      intro a i
      rw [Nat.add_comm i 1, Nat.shiftRight_add]
    rw [hacc]
    show (List.range n).foldl (fun a i => 2 * a + ((tmp >>> 1 >>> i) &&& 1))
        (2 * acc + ((tmp >>> 0) &&& 1)) = _
    congr 1
    funext a i
    rw [Nat.succ_eq_add_one, Nat.add_comm i 1, Nat.shiftRight_add]

theorem rev32_eq (crc : Nat) :
    (iterN core_shared.crc_rev_once 32 (0, crc)).1 = crcspec.bit_reverse32 crc := by
  rw [rev_loop_eq, foldl_double, crcspec.bit_reverse32]
  simp only [Nat.zero_mul, Nat.zero_add]
  apply Finset.sum_congr rfl
  intro i hi
  rw [and_one_eq_testBit]

theorem bit_reverse32_lt (x : Nat) : crcspec.bit_reverse32 x < 4294967296 := by
  have hle : crcspec.bit_reverse32 x ≤ ∑ i ∈ Finset.range 32, 2 ^ (31 - i) := by
    apply Finset.sum_le_sum
    intro i _
    have : (x.testBit i).toNat ≤ 1 := by cases x.testBit i <;> simp
    calc (x.testBit i).toNat * 2 ^ (31 - i) ≤ 1 * 2 ^ (31 - i) :=
          Nat.mul_le_mul_right _ this
      _ = 2 ^ (31 - i) := Nat.one_mul _
  have hsum : ∑ i ∈ Finset.range 32, (2 : Nat) ^ (31 - i) = 4294967295 := by decide
  omega

/-- C3: for every byte string the checksum is the pure deterministic
    function described by the spec reference: accumulator 0, each byte
    XORed into the top 8 bits followed by 8 MSB-first shift steps XORing
    the polynomial `0x04C11DB7` when the top bit was set before the
    shift, and finally bit reversal of the 32 bit accumulator XORed with
    `0xFFFFFFFF`. -/
theorem c3_crc32_custom_eq_reference (data : Bytes) :
    core_shared.crc32_custom data = crcspec.crc32_ref data := by
  have hfold : ∀ (l : Bytes) (init : Nat),
      l.foldl core_shared.crc_absorb_byte init = l.foldl crcspec.absorb init := by
    intro l
    induction l with
    | nil => intro init; rfl
    | cons b rest ih =>
      intro init
      rw [List.foldl_cons, List.foldl_cons, crc_absorb_eq, ih]
  show (((iterN core_shared.crc_rev_once 32
      (0, data.foldl core_shared.crc_absorb_byte 0)).1) ^^^ 0xFFFFFFFF) &&& 0xFFFFFFFF
      = crcspec.bit_reverse32 (data.foldl crcspec.absorb 0) ^^^ 0xFFFFFFFF
  rw [hfold, rev32_eq]
  have hlt : crcspec.bit_reverse32 (data.foldl crcspec.absorb 0) ^^^ 0xFFFFFFFF < 2 ^ 32 :=
    Nat.xor_lt_two_pow (by exact_mod_cast bit_reverse32_lt _) (by norm_num)
  have hmask : (0xFFFFFFFF : Nat) = 2 ^ 32 - 1 := by norm_num
  nth_rewrite 2 [hmask]
  rw [Nat.and_pow_two_sub_one_of_lt_two_pow hlt]

theorem scan_window_go_hit (data : Bytes) (b fuel i : Nat) (h8 : i + 8 ≤ b)
    (hp : rsd_core_signature.in_box data i = true) :
    rsd_core_signature.scan_window_go data b (fuel + 1) i
      = some (rsd_core_signature.pair_lat data i, rsd_core_signature.pair_lon data i) := by
  rw [rsd_core_signature.scan_window_go]
  simp [h8, hp]

theorem sig_demo_in_box_64 : rsd_core_signature.in_box sig_demo 64 = true := by
  have e1 : readI32 sig_demo 64 = 536870912 := rfl
  have e2 : readI32 sig_demo (64 + 4) = -1073741824 := rfl
  unfold rsd_core_signature.in_box rsd_core_signature.pair_lat rsd_core_signature.pair_lon
  rw [e1, e2, decide_eq_true_eq]
  norm_num [mapunit_to_deg]

theorem sig_demo_in_box_8 : rsd_core_signature.in_box sig_demo 8 = true := by
  have e1 : readI32 sig_demo 8 = 537919488 := rfl
  have e2 : readI32 sig_demo (8 + 4) = -1073741824 := rfl
  unfold rsd_core_signature.in_box rsd_core_signature.pair_lat rsd_core_signature.pair_lon
  rw [e1, e2, decide_eq_true_eq]
  norm_num [mapunit_to_deg]

theorem sig_demo_in_box_72 : rsd_core_signature.in_box sig_demo 72 = true := by
  have e1 : readI32 sig_demo 72 = 535822336 := rfl
  have e2 : readI32 sig_demo (72 + 4) = -1073741824 := rfl
  unfold rsd_core_signature.in_box rsd_core_signature.pair_lat rsd_core_signature.pair_lon
  rw [e1, e2, decide_eq_true_eq]
  norm_num [mapunit_to_deg]

theorem sig_demo_parse : rsd_core_signature.parse_file sig_demo
    = [(mapunit_to_deg 536870912, mapunit_to_deg (-1073741824))] := by
  have hoffs : rsd_core_signature.find_offsets sig_demo = [0] := rfl
  have hwin : rsd_core_signature.scan_window sig_demo 0
      = some (rsd_core_signature.pair_lat sig_demo 64, rsd_core_signature.pair_lon sig_demo 64) := by
    show rsd_core_signature.scan_window_go sig_demo 80 17 64 = _
    exact scan_window_go_hit sig_demo 80 16 64 (by norm_num) sig_demo_in_box_64
  have hlat : rsd_core_signature.pair_lat sig_demo 64 = mapunit_to_deg 536870912 := rfl
  have hlon : rsd_core_signature.pair_lon sig_demo 64 = mapunit_to_deg (-1073741824) := rfl
  unfold rsd_core_signature.parse_file
  rw [hoffs]
  simp [List.filterMap, hwin, hlat, hlon]

/-! ## Claim C1 — varuint reader -/

theorem pySlice_cons {buf : Bytes} {a b : Nat} (hab : a < b) (halen : a < buf.length) :
    pySlice buf a b = byteAt buf a :: pySlice buf (a + 1) b := by
  unfold pySlice byteAt
  have hlen : a < (buf.take b).length := by
    rw [List.length_take]; exact lt_min hab halen
  rw [List.drop_eq_getElem_cons hlen]
  congr 1
  have h1 : (buf.take b)[a] = buf[a] := by
    have h2 := List.getElem?_take_of_lt (l := buf) (n := b) (m := a) hab
    rw [List.getElem?_eq_getElem hlen, List.getElem?_eq_getElem halen] at h2
    exact Option.some.inj h2
  rw [h1, List.getD_eq_getElem?_getD, List.getElem?_eq_getElem halen]
  rfl

theorem pySlice_self (buf : Bytes) (a : Nat) : pySlice buf a a = [] := by
  unfold pySlice
  exact List.drop_eq_nil_of_le (by rw [List.length_take]; omega)

theorem read_varuint_go_ok (buf : Bytes) (limit : Nat) (hlim : limit ≤ buf.length) :
    ∀ fuel pos res shift v p',
      core_shared.read_varuint_go buf limit pos fuel res shift = .ok (v, p') →
      pos < p' ∧ p' ≤ limit ∧ p' ≤ pos + fuel ∧
      byteAt buf (p' - 1) &&& 0x80 = 0 ∧
      (∀ i, pos ≤ i → i < p' - 1 → byteAt buf i &&& 0x80 ≠ 0) ∧
      (res < 2 ^ shift → v = res + lebVal (pySlice buf pos p') * 2 ^ shift) ∧
      v ≤ 0xFFFFFFFF := by
  intro fuel
  induction fuel with
  | zero =>
    intro pos res shift v p' h
    simp [core_shared.read_varuint_go] at h
  | succ fuel ih =>
    intro pos res shift v p' h
    rw [core_shared.read_varuint_go] at h
    set b := byteAt buf pos with hbdef
    by_cases hc : pos < limit ∧ shift < 35
    · rw [if_pos hc] at h
      by_cases hfin : 28 ≤ shift ∧ 0x0F < b &&& 0x7F
      · rw [if_pos hfin] at h; simp at h
      · rw [if_neg hfin] at h
        set res2 := res ||| ((b &&& 0x7F) <<< shift) with hres2def
        by_cases hov : 0xFFFFFFFF < res2
        · rw [if_pos hov] at h; simp at h
        · rw [if_neg hov] at h
          have hposlen : pos < buf.length := lt_of_lt_of_le hc.1 hlim
          have hx : b &&& 0x7F < 128 := Nat.and_lt_two_pow b (n := 7) (by norm_num)
          have hor : res < 2 ^ shift → res2 = (b &&& 0x7F) * 2 ^ shift + res := by
            intro hres
            rw [hres2def, Nat.shiftLeft_eq, Nat.lor_comm, Nat.mul_comm]
            exact (Nat.mul_add_lt_is_or hres _).symm
          by_cases hterm : b &&& 0x80 = 0
          · rw [if_pos hterm] at h
            simp only [Except.ok.injEq, Prod.mk.injEq] at h
            obtain ⟨hv, hp⟩ := h
            subst hv; subst hp
            refine ⟨by omega, by omega, by omega, ?_, ?_, ?_, by omega⟩
            · simpa using hterm
            · intro i h1 h2; omega
            · intro hres
              rw [pySlice_cons (by omega) hposlen, pySlice_self]
              rw [hor hres, lebVal, lebVal]
              ring
          · rw [if_neg hterm] at h
            obtain ⟨ha1, ha2, ha3, hb4, hc5, hd6, he7⟩ :=
              ih (pos + 1) res2 (shift + 7) v p' h
            refine ⟨by omega, ha2, by omega, hb4, ?_, ?_, he7⟩
            · intro i h1 h2
              rcases Nat.eq_or_lt_of_le h1 with h1e | h1l
              · rw [← h1e, ← hbdef]; exact hterm
              · exact hc5 i h1l h2
            · intro hres
              have hres2lt : res2 < 2 ^ (shift + 7) := by
                rw [hres2def]
                apply Nat.or_lt_two_pow
                · exact lt_of_lt_of_le hres (Nat.pow_le_pow_right (by omega) (by omega))
                · rw [Nat.shiftLeft_eq, pow_add]
                  calc (b &&& 0x7F) * 2 ^ shift < 128 * 2 ^ shift := by
                        exact (Nat.mul_lt_mul_right (Nat.two_pow_pos shift)).mpr hx
                    _ = 2 ^ shift * 2 ^ 7 := by norm_num; ring
              rw [pySlice_cons (by omega) hposlen, lebVal, hd6 hres2lt, hor hres,
                pow_add]
              norm_num
              ring
    · rw [if_neg hc] at h; simp at h

/-- C1 (corrected: the property holds for the `core_shared` reader; the
    `rsd_core_crc_plus` copy violates it, see the counterexample): the
    `core_shared` varuint reader consumes at most 5 bytes and at most
    the bytes below `limit`, fails whenever no byte with a clear
    continuation bit occurs among them, and on success returns exactly
    the LEB128 value of the consumed bytes — at most `0xFFFFFFFF` —
    together with the position just past the terminating byte. -/
theorem c1_read_varuint_shared_sound (buf : Bytes) (pos limit : Nat)
    (hlim : limit ≤ buf.length) :
    (∀ v p', core_shared.read_varuint_from buf pos limit = .ok (v, p') →
      pos < p' ∧ p' ≤ limit ∧ p' ≤ pos + 5 ∧
      byteAt buf (p' - 1) &&& 0x80 = 0 ∧
      (∀ i, pos ≤ i → i < p' - 1 → byteAt buf i &&& 0x80 ≠ 0) ∧
      v = lebVal (pySlice buf pos p') ∧ v ≤ 0xFFFFFFFF) ∧
    ((∀ i, pos ≤ i → i < min limit (pos + 5) → byteAt buf i &&& 0x80 ≠ 0) →
      ∃ e, core_shared.read_varuint_from buf pos limit = .error e) := by
  constructor
  · intro v p' h
    obtain ⟨h1, h2, h3, h4, h5, h6, h7⟩ :=
      read_varuint_go_ok buf limit hlim 5 pos 0 0 v p' h
    exact ⟨h1, h2, h3, h4, h5, by simpa using h6 (by norm_num), h7⟩
  · intro hall
    cases h : core_shared.read_varuint_from buf pos limit with
    | ok vp =>
      obtain ⟨h1, h2, h3, h4, _, _, _⟩ :=
        read_varuint_go_ok buf limit hlim 5 pos 0 0 vp.1 vp.2 (by exact h)
      exact absurd h4 (hall (vp.2 - 1) (by omega) (by omega))
    | error e => exact ⟨e, rfl⟩

/-- Witness for C1 at the two byte buffer `85 01` (value 133). -/
theorem c1_read_varuint_shared_sound_witness :
    0 < 2 ∧ 2 ≤ 2 ∧ 2 ≤ 0 + 5 ∧
    byteAt [0x85, 0x01] (2 - 1) &&& 0x80 = 0 ∧
    (∀ i, 0 ≤ i → i < 2 - 1 → byteAt [0x85, 0x01] i &&& 0x80 ≠ 0) ∧
    133 = lebVal (pySlice [0x85, 0x01] 0 2) ∧ 133 ≤ 0xFFFFFFFF :=
  (c1_read_varuint_shared_sound [0x85, 0x01] 0 2 (by norm_num)).1 133 2 rfl

/-- C1 counterexample: the `rsd_core_crc_plus` varuint reader consumes
    SIX bytes on `80 80 80 80 80 01` and silently returns `2^35`, which
    exceeds 32 bits — no overflow error is raised. -/
theorem c1_counterexample :
    rsd_core_crc_plus.read_varuint_from [0x80, 0x80, 0x80, 0x80, 0x80, 0x01] 0 6
      = .ok (34359738368, 6) ∧ 0xFFFFFFFF < 34359738368 ∧ 0 + 5 < 6 :=
  ⟨rfl, by norm_num, by norm_num⟩

/-! ## Claim C2 — chunked magic scanner -/

/-- C2 (code_bug): consecutive scan chunks of `find_magic` do not
    overlap, so an occurrence that straddles a chunk boundary is never
    compared against any window.  With pattern `01 02 03 04` at offset 6,
    range `[0, 20)` and chunk 8 (the chunk size is a parameter of the
    source function; the default is 32 MiB), `find_magic` returns -1
    although a plain bounded find locates the first occurrence at 6. -/
theorem c2_find_magic_chunk_boundary_miss :
    core_shared.find_magic
        ((List.replicate 6 0) ++ [1, 2, 3, 4] ++ (List.replicate 10 0)) [1, 2, 3, 4] 0 20 8
      = -1 ∧
    find_bytes ((List.replicate 6 0) ++ [1, 2, 3, 4] ++ (List.replicate 10 0)) [1, 2, 3, 4] 0 20
      = 6 ∧
    pySlice ((List.replicate 6 0) ++ [1, 2, 3, 4] ++ (List.replicate 10 0)) 6 10
      = [1, 2, 3, 4] :=
  ⟨rfl, rfl, rfl⟩

/-! ## Claim C4 — field count bound -/

/-- C4 (corrected): the bound 50 is enforced by the shared parser only
    on the `warn` path (the one the Tolerant engine uses, and its
    pre-validation applies the same bound 50); on the `strict` path the
    bound violation is swallowed by the `except` clause and the fields
    are decoded anyway, and the strict core parser in
    `rsd_core_crc_plus` uses the bound 20000 instead of 50. -/
theorem c4_field_count_bounds :
    (∀ (buf : Bytes) (pos limit n p2 : Nat),
      core_shared.read_varuint_from buf
          (if pos + 4 ≤ limit ∧ readU32 buf pos = MAGIC_REC_HDR then pos + 4 else pos)
          limit = .ok (n, p2) →
      50 < n →
      core_shared.parse_varstruct buf pos limit CrcMode.warn
        = .error "Unreasonable field count") ∧
    (∀ (buf : Bytes) (pos_magic limit n p2 : Nat),
      core_shared.read_varuint_from buf (pos_magic + 4) limit = .ok (n, p2) →
      50 < n →
      engine_nextgen_syncfirst.header_stage buf pos_magic limit = none) ∧
    (∀ (buf : Bytes) (pos limit : Nat) (m : CrcMode) (n p2 : Nat),
      rsd_core_crc_plus.read_varuint_from buf pos limit = .ok (n, p2) →
      20000 < n →
      rsd_core_crc_plus.parse_varstruct buf pos limit m
        = .error "Unreasonable field count") := by
  refine ⟨?_, ?_, ?_⟩
  · intro buf pos limit n p2 h hn
    simp only [core_shared.parse_varstruct]
    rw [h]
    simp [hn]
  · intro buf pos_magic limit n p2 h hn
    simp only [engine_nextgen_syncfirst.header_stage]
    rw [h]
    simp [hn]
  · intro buf pos limit m n p2 h hn
    simp only [rsd_core_crc_plus.parse_varstruct]
    rw [h]
    simp [hn]

/-- Witness for C4 on a buffer whose field count varuint reads 51: the
    shared parser on the warn path rejects it. -/
theorem c4_field_count_bounds_witness :
    core_shared.parse_varstruct [0x33] 0 1 CrcMode.warn
      = .error "Unreasonable field count" ∧
    engine_nextgen_syncfirst.header_stage [0x86, 0xDA, 0xE9, 0xB7, 0x33] 0 5 = none ∧
    rsd_core_crc_plus.parse_varstruct [0xA1, 0x9C, 0x01] 0 3 CrcMode.warn
      = .error "Unreasonable field count" :=
  ⟨c4_field_count_bounds.1 [0x33] 0 1 51 1 rfl (by norm_num),
    c4_field_count_bounds.2.1 [0x86, 0xDA, 0xE9, 0xB7, 0x33] 0 5 51 5 rfl (by norm_num),
    c4_field_count_bounds.2.2 [0xA1, 0x9C, 0x01] 0 3 CrcMode.warn 20001 3 rfl (by norm_num)⟩

theorem setField_idem (f : Fields) (k : Nat) (v : Bytes) :
    setField (setField f k v) k v = setField f k v := by
  unfold setField
  simp [List.filter_filter]

theorem parse_fields_ones_plus (buf : Bytes) (limit : Nat) :
    ∀ (k pos : Nat) (fields : Fields),
      (∀ j, pos ≤ j → j < pos + k → byteAt buf j = 0x08) →
      pos + k ≤ limit →
      rsd_core_crc_plus.parse_fields buf limit k pos fields
        = .ok (if k = 0 then fields else setField fields 1 [], pos + k) := by
  intro k
  induction k with
  | zero =>
    intro pos fields hbytes hlim
    simp [rsd_core_crc_plus.parse_fields]
  | succ k ih =>
    intro pos fields hbytes hlim
    have hb : byteAt buf pos = 0x08 := hbytes pos le_rfl (by omega)
    have hvar : rsd_core_crc_plus.read_varuint_from buf pos limit = .ok (8, pos + 1) := by
      unfold rsd_core_crc_plus.read_varuint_from
      rw [rsd_core_crc_plus.read_varuint_go, if_pos (by omega : pos < limit), hb,
        if_pos (by decide : (8 : Nat) &&& 0x80 = 0),
        show (0 : Nat) ||| ((8 &&& 0x7F) <<< 0) = 8 from by decide]
    rw [rsd_core_crc_plus.parse_fields, hvar]
    have hnl2 : ¬ limit < pos + 1 + 0 := by omega
    have hih := ih (pos + 1) (setField fields 1 [])
      (fun j h1 h2 => hbytes j (by omega) (by omega)) (by omega)
    simp [hnl2, pySlice_self, hih, setField_idem,
      show (8 : Nat) &&& 7 = 0 from rfl, show (8 : Nat) >>> 3 = 1 from rfl,
      Nat.add_assoc]
    omega

theorem parse_fields_ones_shared (buf : Bytes) (limit : Nat) :
    ∀ (k pos : Nat) (fields : Fields),
      (∀ j, pos ≤ j → j < pos + k → byteAt buf j = 0x08) →
      pos + k ≤ limit →
      core_shared.parse_fields buf limit k pos fields
        = .ok (if k = 0 then fields else setField fields 1 [], pos + k) := by
  intro k
  induction k with
  | zero =>
    intro pos fields hbytes hlim
    simp [core_shared.parse_fields]
  | succ k ih =>
    intro pos fields hbytes hlim
    have hb : byteAt buf pos = 0x08 := hbytes pos le_rfl (by omega)
    have hvar : core_shared.read_varuint_from buf pos limit = .ok (8, pos + 1) := by
      unfold core_shared.read_varuint_from
      rw [core_shared.read_varuint_go,
        if_pos (⟨by omega, by omega⟩ : pos < limit ∧ (0:Nat) < 35),
        if_neg (fun hx => absurd hx.1 (by omega)), hb]
      rw [show (0 : Nat) ||| ((8 &&& 0x7F) <<< 0) = 8 from by decide,
        if_neg (by decide : ¬ (0xFFFFFFFF : Nat) < 8),
        if_pos (by decide : (8 : Nat) &&& 0x80 = 0)]
    rw [core_shared.parse_fields, hvar]
    have hnl2 : ¬ limit < pos + 1 + 0 := by omega
    have hih := ih (pos + 1) (setField fields 1 [])
      (fun j h1 h2 => hbytes j (by omega) (by omega)) (by omega)
    simp [hnl2, pySlice_self, hih, setField_idem,
      show (8 : Nat) &&& 7 = 0 from rfl, show (8 : Nat) >>> 3 = 1 from rfl,
      Nat.add_assoc]
    omega

set_option maxRecDepth 4000 in
/-- C4 counterexample: the strict core parser accepts a field count of
    51 (its bound is 20000), and even the shared parser accepts 51 on
    the `strict` path because the bound check is swallowed there — only
    the warn path rejects. -/
theorem c4_counterexample :
    rsd_core_crc_plus.parse_varstruct (0x33 :: (List.replicate 51 0x08 ++ [0, 0, 0, 0]))
      0 56 CrcMode.warn = .ok ([(1, [])], 56) ∧
    rsd_core_crc_plus.read_varuint_from (0x33 :: (List.replicate 51 0x08 ++ [0, 0, 0, 0]))
      0 56 = .ok (51, 1) ∧
    core_shared.parse_varstruct (0x33 :: (List.replicate 51 0x08 ++ [162, 66, 244, 173]))
      0 56 CrcMode.strict = .ok ([(1, [])], 56) ∧
    50 < 51 := by
  refine ⟨?_, rfl, ?_, by norm_num⟩
  · have hpf := parse_fields_ones_plus (0x33 :: (List.replicate 51 0x08 ++ [0, 0, 0, 0]))
      56 51 1 [] (by decide) (by norm_num)
    simp only [rsd_core_crc_plus.parse_varstruct]
    rw [show rsd_core_crc_plus.read_varuint_from
        (0x33 :: (List.replicate 51 0x08 ++ [0, 0, 0, 0])) 0 56 = .ok (51, 1) from rfl]
    simp only [List.replicate, List.cons_append, List.nil_append] at hpf
    simp [hpf, setField]
  · have hpf := parse_fields_ones_shared (0x33 :: (List.replicate 51 0x08 ++ [162, 66, 244, 173]))
      56 51 1 [] (by decide) (by norm_num)
    have hsl : pySlice (0x33 :: (List.replicate 51 0x08 ++ [162, 66, 244, 173])) 0 52
        = [51, 8, 8, 8, 8, 8, 8, 8, 8, 8, 8, 8, 8, 8, 8, 8, 8, 8, 8, 8, 8, 8, 8, 8, 8, 8, 8, 8, 8, 8, 8, 8, 8, 8, 8, 8, 8, 8, 8, 8, 8, 8, 8, 8, 8, 8, 8, 8, 8, 8, 8, 8] := rfl
    have e0 : core_shared.crc_absorb_byte 0 51 = 3648080713 := by decide
    have e1 : core_shared.crc_absorb_byte 3648080713 8 = 1678843742 := by decide
    have e2 : core_shared.crc_absorb_byte 1678843742 8 = 2293629939 := by decide
    have e3 : core_shared.crc_absorb_byte 2293629939 8 = 3742307310 := by decide
    have e4 : core_shared.crc_absorb_byte 3742307310 8 = 13628908 := by decide
    have e5 : core_shared.crc_absorb_byte 13628908 8 = 3925672376 := by decide
    have e6 : core_shared.crc_absorb_byte 3925672376 8 = 1013547982 := by decide
    have e7 : core_shared.crc_absorb_byte 1013547982 8 = 2931152204 := by decide
    have e8 : core_shared.crc_absorb_byte 2931152204 8 = 1585207228 := by decide
    have e9 : core_shared.crc_absorb_byte 1585207228 8 = 507927221 := by decide
    have e10 : core_shared.crc_absorb_byte 507927221 8 = 281879490 := by decide
    have e11 : core_shared.crc_absorb_byte 281879490 8 = 2805658824 := by decide
    have e12 : core_shared.crc_absorb_byte 2805658824 8 = 4086571955 := by decide
    have e13 : core_shared.crc_absorb_byte 4086571955 8 = 919635304 := by decide
    have e14 : core_shared.crc_absorb_byte 919635304 8 = 943302042 := by decide
    have e15 : core_shared.crc_absorb_byte 943302042 8 = 3986159504 := by decide
    have e16 : core_shared.crc_absorb_byte 3986159504 8 = 1167842578 := by decide
    have e17 : core_shared.crc_absorb_byte 1167842578 8 = 2660689060 := by decide
    have e18 : core_shared.crc_absorb_byte 2660689060 8 = 2843726380 := by decide
    have e19 : core_shared.crc_absorb_byte 2843726380 8 = 2319214521 := by decide
    have e20 : core_shared.crc_absorb_byte 2319214521 8 = 1558798976 := by decide
    have e21 : core_shared.crc_absorb_byte 1558798976 8 = 2196856283 := by decide
    have e22 : core_shared.crc_absorb_byte 2196856283 8 = 3084643640 := by decide
    have e23 : core_shared.crc_absorb_byte 3084643640 8 = 1587284163 := by decide
    have e24 : core_shared.crc_absorb_byte 1587284163 8 = 4263060917 := by decide
    have e25 : core_shared.crc_absorb_byte 4263060917 8 = 2317026747 := by decide
    have e26 : core_shared.crc_absorb_byte 2317026747 8 = 2072731776 := by decide
    have e27 : core_shared.crc_absorb_byte 2072731776 8 = 1721219902 := by decide
    have e28 : core_shared.crc_absorb_byte 1721219902 8 = 126900381 := by decide
    have e29 : core_shared.crc_absorb_byte 126900381 8 = 2820087997 := by decide
    have e30 : core_shared.crc_absorb_byte 2820087997 8 = 3859802894 := by decide
    have e31 : core_shared.crc_absorb_byte 3859802894 8 = 4140599411 := by decide
    have e32 : core_shared.crc_absorb_byte 4140599411 8 = 2042506755 := by decide
    have e33 : core_shared.crc_absorb_byte 2042506755 8 = 1515914064 := by decide
    have e34 : core_shared.crc_absorb_byte 1515914064 8 = 706134121 := by decide
    have e35 : core_shared.crc_absorb_byte 706134121 8 = 2271339662 := by decide
    have e36 : core_shared.crc_absorb_byte 2271339662 8 = 816304979 := by decide
    have e37 : core_shared.crc_absorb_byte 816304979 8 = 1441387304 := by decide
    have e38 : core_shared.crc_absorb_byte 1441387304 8 = 2693334484 := by decide
    have e39 : core_shared.crc_absorb_byte 2693334484 8 = 1579315126 := by decide
    have e40 : core_shared.crc_absorb_byte 1579315126 8 = 1082020021 := by decide
    have e41 : core_shared.crc_absorb_byte 1082020021 8 = 1826498767 := by decide
    have e42 : core_shared.crc_absorb_byte 1826498767 8 = 1636400971 := by decide
    have e43 : core_shared.crc_absorb_byte 1636400971 8 = 118717848 := by decide
    have e44 : core_shared.crc_absorb_byte 118717848 8 = 724706749 := by decide
    have e45 : core_shared.crc_absorb_byte 724706749 8 = 2806328633 := by decide
    have e46 : core_shared.crc_absorb_byte 2806328633 8 = 2353910451 := by decide
    have e47 : core_shared.crc_absorb_byte 2353910451 8 = 937043250 := by decide
    have e48 : core_shared.crc_absorb_byte 937043250 8 = 911794733 := by decide
    have e49 : core_shared.crc_absorb_byte 911794733 8 = 2959007898 := by decide
    have e50 : core_shared.crc_absorb_byte 2959007898 8 = 3319200454 := by decide
    have e51 : core_shared.crc_absorb_byte 3319200454 8 = 3133001802 := by decide
    have hfold : List.foldl core_shared.crc_absorb_byte 0
        (pySlice (0x33 :: (List.replicate 51 0x08 ++ [162, 66, 244, 173])) 0 52)
        = 3133001802 := by
      rw [hsl]
      simp only [List.foldl_cons, List.foldl_nil, e0, e1, e2, e3, e4, e5, e6, e7, e8, e9, e10, e11, e12, e13, e14, e15, e16, e17, e18, e19, e20, e21, e22, e23, e24, e25, e26, e27, e28, e29, e30, e31, e32, e33, e34, e35, e36, e37, e38, e39, e40, e41, e42, e43, e44, e45, e46, e47, e48, e49, e50, e51]
    have hcrc : core_shared.crc32_custom
        (pySlice (0x33 :: (List.replicate 51 0x08 ++ [162, 66, 244, 173])) 0 52)
        = readU32 (0x33 :: (List.replicate 51 0x08 ++ [162, 66, 244, 173])) 52 := by
      simp only [core_shared.crc32_custom]
      rw [hfold]
      decide
    simp only [core_shared.parse_varstruct]
    rw [show core_shared.read_varuint_from
        (0x33 :: (List.replicate 51 0x08 ++ [162, 66, 244, 173]))
        (if 0 + 4 ≤ 56 ∧ readU32 (0x33 :: (List.replicate 51 0x08 ++ [162, 66, 244, 173])) 0
            = MAGIC_REC_HDR then 0 + 4 else 0) 56 = .ok (51, 1) from rfl]
    simp only [List.replicate, List.cons_append, List.nil_append] at hpf hcrc
    simp [hpf, hcrc, setField]

/-! ## Claim C6 — orchestrator escalation -/

/-- C6 (confirmed): without `--force-heuristic` the heuristic engine
    runs exactly when the strict combined count (`rows + rows_ss +
    rows_dv`, a failed or timed out worker counting 0) is below 10; when
    it runs, `rows_total` is the maximum of the strict count and the
    heuristic point count, and when the strict count is at least 10 the
    heuristic is not run and `rows_total` is the strict count. -/
theorem c6_orchestrator_escalation (res : one_test.StrictOutcome) (points : Nat) :
    ((one_test.main_decision false res points).1
      = decide (one_test.strict_rows_total res < 10)) ∧
    (one_test.strict_rows_total res < 10 →
      one_test.main_decision false res points
        = (true, max (one_test.strict_rows_total res) points)) ∧
    (10 ≤ one_test.strict_rows_total res →
      one_test.main_decision false res points = (false, one_test.strict_rows_total res)) := by
  unfold one_test.main_decision
  by_cases h : one_test.strict_rows_total res < 10
  · simp [h]
  · simp [h]

/-- Witness for C6 at the boundary: a strict yield of 9 escalates (and
    reports the larger heuristic count), a strict yield of 10 does
    not. -/
theorem c6_orchestrator_escalation_witness :
    one_test.main_decision false (some (9, 0, 0)) 12 = (true, 12) ∧
    one_test.main_decision false (some (10, 0, 0)) 12 = (false, 10) := by
  constructor
  · have h := (c6_orchestrator_escalation (some (9, 0, 0)) 12).2.1
      (by norm_num [one_test.strict_rows_total])
    simpa [one_test.strict_rows_total] using h
  · have h := (c6_orchestrator_escalation (some (10, 0, 0)) 12).2.2
      (by norm_num [one_test.strict_rows_total])
    simpa [one_test.strict_rows_total] using h

/-! ## Claim C5 — tolerant engine advancement on failure -/

/-- C5 (corrected): in the tolerant engine the declared-length
    advancement `body_start + data_sz` happens only for failures of the
    body stage (and for emitted records); a candidate that fails during
    the header stage — including the pre-validation, the varstruct parse
    and the plausibility gates — resumes with a blind 4-byte skip at
    `pos_magic + 4`. -/
theorem c5_tolerant_advancement (buf : Bytes) (pos limit : Nat) (m : Nat)
    (hm : core_shared.find_magic buf MAGIC_REC_HDR_LE pos limit FIND_CHUNK = (m : Int)) :
    (engine_nextgen_syncfirst.header_stage buf m limit = none →
      engine_nextgen_syncfirst.step buf pos limit
        = .skip (m + 4)) ∧
    (∀ bs seq tms ds,
      engine_nextgen_syncfirst.header_stage buf m limit = some (bs, seq, tms, ds) →
      ¬ ((pySlice buf (m + 4) (m + 8)).length = 4 ∧
          readU32 (pySlice buf (m + 4) (m + 8)) 0 = MAGIC_REC_HDR) →
      ¬ limit < bs + ds →
      (engine_nextgen_syncfirst.body_stage buf m seq tms bs ds limit = none →
        engine_nextgen_syncfirst.step buf pos limit = .skip (bs + ds)) ∧
      (∀ r, engine_nextgen_syncfirst.body_stage buf m seq tms bs ds limit = some r →
        engine_nextgen_syncfirst.step buf pos limit = .emit r (bs + ds))) := by
  have hstep : engine_nextgen_syncfirst.step buf pos limit
      = (if ((pySlice buf (m + 4) (m + 8)).length = 4 ∧
            readU32 (pySlice buf (m + 4) (m + 8)) 0 = MAGIC_REC_HDR) then
          .skip (m + 4)
        else
          match engine_nextgen_syncfirst.header_stage buf m limit with
          | none => .skip (m + 4)
          | some (body_start, seq, time_ms, data_sz) =>
            if limit < body_start + data_sz then .halt
            else
              match engine_nextgen_syncfirst.body_stage buf m seq time_ms
                  body_start data_sz limit with
              | none => .skip (body_start + data_sz)
              | some r => .emit r (body_start + data_sz)) := by
    unfold engine_nextgen_syncfirst.step
    rw [hm]
    simp
  constructor
  · intro hnone
    rw [hstep]
    by_cases hfp : ((pySlice buf (m + 4) (m + 8)).length = 4 ∧
        readU32 (pySlice buf (m + 4) (m + 8)) 0 = MAGIC_REC_HDR)
    · rw [if_pos hfp]
    · rw [if_neg hfp, hnone]
  · intro bs seq tms ds hsome hfp hfit
    constructor
    · intro hbody
      rw [hstep, if_neg hfp, hsome]
      simp only [if_neg hfit, hbody]
    · intro r hbody
      rw [hstep, if_neg hfp, hsome]
      simp only [if_neg hfit, hbody]


/-- Witness for C5: the header-failure candidate resumes at
    `pos_magic + 4 = 4`; the body-failure candidate resumes at
    `body_start + data_sz = 17 + 32`. -/
theorem c5_tolerant_advancement_witness :
    engine_nextgen_syncfirst.step ng_demo_header_fail 0 9 = .skip (0 + 4) ∧
    engine_nextgen_syncfirst.step ng_demo_body_fail 0 49 = .skip (17 + 32) :=
  ⟨(c5_tolerant_advancement ng_demo_header_fail 0 9 0 rfl).1 rfl,
    ((c5_tolerant_advancement ng_demo_body_fail 0 49 0 rfl).2 17 0 0 32 rfl
      (by decide) (by decide)).1 rfl⟩

/-- C5 counterexample: a candidate whose header magic was found at 0 and
    which then fails is advanced past by the blind 4-byte skip to
    `pos_magic + 4 = 4`, not by any declared body length. -/
theorem c5_counterexample :
    core_shared.find_magic ng_demo_header_fail MAGIC_REC_HDR_LE 0 9 FIND_CHUNK = 0 ∧
    engine_nextgen_syncfirst.header_stage ng_demo_header_fail 0 9 = none ∧
    engine_nextgen_syncfirst.step ng_demo_header_fail 0 9 = .skip (0 + 4) :=
  ⟨rfl, rfl, rfl⟩

/-! ## Claim C7 — heuristic signature engine -/

theorem scan_window_go_spec (data : Bytes) (b : Nat) :
    ∀ fuel i, b < i + 8 + 4 * fuel →
      (rsd_core_signature.scan_window_go data b fuel i = none ↔
        ∀ k, i + 4 * k + 8 ≤ b → rsd_core_signature.in_box data (i + 4 * k) = false) ∧
      (∀ c, rsd_core_signature.scan_window_go data b fuel i = some c →
        ∃ k, i + 4 * k + 8 ≤ b ∧ rsd_core_signature.in_box data (i + 4 * k) = true ∧
          c = (rsd_core_signature.pair_lat data (i + 4 * k),
               rsd_core_signature.pair_lon data (i + 4 * k)) ∧
          ∀ j, j < k → rsd_core_signature.in_box data (i + 4 * j) = false) := by
  intro fuel
  induction fuel with
  | zero =>
    intro i hsuf
    constructor
    · constructor
      · intro _ k hk
        exact absurd hk (by omega)
      · intro _
        rfl
    · intro c hc
      exact absurd hc (by simp [rsd_core_signature.scan_window_go])
  | succ fuel ih =>
    intro i hsuf
    rw [rsd_core_signature.scan_window_go]
    by_cases h8 : i + 8 ≤ b
    · rw [if_pos h8]
      by_cases hp : rsd_core_signature.in_box data i = true
      · rw [if_pos hp]
        constructor
        · constructor
          · intro hnone
            exact absurd hnone (by simp)
          · intro hall
            have h0 := hall 0 (by omega)
            rw [show i + 4 * 0 = i by omega] at h0
            rw [hp] at h0
            exact absurd h0 (by simp)
        · intro c hc
          refine ⟨0, by omega, ?_, ?_, ?_⟩
          · rw [show i + 4 * 0 = i by omega]; exact hp
          · rw [show i + 4 * 0 = i by omega]
            exact (Option.some.inj hc).symm
          · intro j hj; omega
      · rw [if_neg hp]
        have hpf : rsd_core_signature.in_box data i = false :=
          Bool.not_eq_true _ ▸ Bool.eq_false_iff.mpr hp
        obtain ⟨ihn, ihs⟩ := ih (i + 4) (by omega)
        constructor
        · rw [ihn]
          constructor
          · intro hall k hk
            cases k with
            | zero =>
              rw [show i + 4 * 0 = i by omega]
              exact hpf
            | succ k2 =>
              have := hall k2 (by omega)
              rw [show i + 4 + 4 * k2 = i + 4 * (k2 + 1) by omega] at this
              exact this
          · intro hall k hk
            have := hall (k + 1) (by omega)
            rw [show i + 4 * (k + 1) = i + 4 + 4 * k by omega] at this
            exact this
        · intro c hc
          obtain ⟨k, hk1, hk2, hk3, hk4⟩ := ihs c hc
          refine ⟨k + 1, by omega, ?_, ?_, ?_⟩
          · rw [show i + 4 * (k + 1) = i + 4 + 4 * k by omega]; exact hk2
          · rw [show i + 4 * (k + 1) = i + 4 + 4 * k by omega]; exact hk3
          · intro j hj
            cases j with
            | zero => rw [show i + 4 * 0 = i by omega]; exact hpf
            | succ j2 =>
              have := hk4 j2 (by omega)
              rw [show i + 4 * (j2 + 1) = i + 4 + 4 * j2 by omega]
              exact this
    · rw [if_neg h8]
      constructor
      · constructor
        · intro _ k hk
          exact absurd hk (by omega)
        · intro _
          rfl
      · intro c hc
        exact absurd hc (by simp)

/-- C7 (corrected): for each header-magic occurrence `h` the signature
    engine scans positions `h + 64, h + 68, …` strictly inside
    `[h + 64, min (len data) (h + 512))` and emits at most ONE point per
    occurrence: the coordinates of the FIRST plausible pair in that
    window (nothing is emitted when no scanned position is plausible);
    pairs before `h + 64`, off-stride, or after the first match do not
    become points, and the total point count is bounded by the number of
    magic occurrences. -/
theorem c7_signature_first_match (data : Bytes) (h : Nat) :
    (rsd_core_signature.scan_window data h = none ↔
      ∀ k, h + 64 + 4 * k + 8 ≤ min data.length (h + 512) →
        rsd_core_signature.in_box data (h + 64 + 4 * k) = false) ∧
    (∀ c, rsd_core_signature.scan_window data h = some c →
      ∃ k, h + 64 + 4 * k + 8 ≤ min data.length (h + 512) ∧
        rsd_core_signature.in_box data (h + 64 + 4 * k) = true ∧
        c = (rsd_core_signature.pair_lat data (h + 64 + 4 * k),
             rsd_core_signature.pair_lon data (h + 64 + 4 * k)) ∧
        ∀ j, j < k → rsd_core_signature.in_box data (h + 64 + 4 * j) = false) ∧
    (rsd_core_signature.parse_file data).length
      ≤ (rsd_core_signature.find_offsets data).length := by
  have hspec := scan_window_go_spec data (min data.length (h + 512))
    (min data.length (h + 512) + 1 - (h + 64)) (h + 64) (by omega)
  refine ⟨hspec.1, hspec.2, ?_⟩
  exact List.length_filterMap_le _ _

/-- Witness for C7 at `sig_demo`, occurrence 0: the emitted point is the
    first match, at stride index 0 (absolute position 64). -/
theorem c7_signature_first_match_witness :
    ∃ k, 0 + 64 + 4 * k + 8 ≤ min sig_demo.length (0 + 512) ∧
      rsd_core_signature.in_box sig_demo (0 + 64 + 4 * k) = true ∧
      (rsd_core_signature.pair_lat sig_demo 64, rsd_core_signature.pair_lon sig_demo 64)
        = (rsd_core_signature.pair_lat sig_demo (0 + 64 + 4 * k),
           rsd_core_signature.pair_lon sig_demo (0 + 64 + 4 * k)) ∧
      ∀ j, j < k → rsd_core_signature.in_box sig_demo (0 + 64 + 4 * j) = false :=
  (c7_signature_first_match sig_demo 0).2.1
    (rsd_core_signature.pair_lat sig_demo 64, rsd_core_signature.pair_lon sig_demo 64)
    (scan_window_go_hit sig_demo 80 16 64 (by norm_num) sig_demo_in_box_64)

/-- C7 counterexample: `sig_demo` has plausible pairs at offsets 8, 64
    and 72 after the single magic occurrence at 0 — all within 450 bytes
    of the magic — yet `parse_file` returns exactly ONE point (the pair
    at 64): the pair at 8 lies before the `h + 64` window start and the
    pair at 72 is skipped by the per-occurrence `break`. -/
theorem c7_counterexample :
    rsd_core_signature.parse_file sig_demo
      = [(mapunit_to_deg 536870912, mapunit_to_deg (-1073741824))] ∧
    rsd_core_signature.in_box sig_demo 8 = true ∧
    rsd_core_signature.in_box sig_demo 72 = true ∧
    rsd_core_signature.find_offsets sig_demo = [0] :=
  ⟨sig_demo_parse, sig_demo_in_box_8, sig_demo_in_box_72, rfl⟩

/-! ## Claim C8 — coordinate ranges -/

theorem byteAt_lt {v : Bytes} (hv : ∀ y ∈ v, y < 256) (i : Nat) : byteAt v i < 256 := by
  unfold byteAt
  rw [List.getD_eq_getElem?_getD]
  cases h : v[i]? with
  | none => simp
  | some y =>
    have hy : y ∈ v := List.getElem?_mem h
    simp [hv y hy]

theorem readU32_lt {v : Bytes} (hv : ∀ y ∈ v, y < 256) (i : Nat) :
    readU32 v i < 4294967296 := by
  unfold readU32
  have h0 := byteAt_lt hv i
  have h1 := byteAt_lt hv (i + 1)
  have h2 := byteAt_lt hv (i + 2)
  have h3 := byteAt_lt hv (i + 3)
  omega

theorem readI32_range {v : Bytes} (hv : ∀ y ∈ v, y < 256) (i : Nat) :
    -2147483648 ≤ readI32 v i ∧ readI32 v i < 2147483648 := by
  unfold readI32
  have hu := readU32_lt hv i
  by_cases h : readU32 v i < 2147483648
  · rw [if_pos h]
    constructor
    · exact le_trans (by norm_num) (Int.ofNat_nonneg _)
    · exact_mod_cast h
  · rw [if_neg h]
    omega

theorem mapunit_range {x : Int} (h1 : -2147483648 ≤ x) (h2 : x < 2147483648) :
    -180 ≤ mapunit_to_deg x ∧ mapunit_to_deg x < 180 := by
  unfold mapunit_to_deg
  have hx1 : (-2147483648 : Rat) ≤ (x : Rat) := by exact_mod_cast h1
  have hx2 : (x : Rat) < 2147483648 := by exact_mod_cast h2
  constructor
  · nlinarith [hx1]
  · nlinarith [hx2]

theorem i32D_range {v : Bytes} (hv : ∀ y ∈ v, y < 256) :
    -2147483648 ≤ rsd_core_crc_plus.i32D v ∧ rsd_core_crc_plus.i32D v < 2147483648 := by
  unfold rsd_core_crc_plus.i32D
  by_cases h : 4 ≤ v.length
  · rw [if_pos h]; exact readI32_range hv 0
  · rw [if_neg h]; norm_num

theorem pySlice_subset {buf : Bytes} {a b : Nat} {y : Nat} (h : y ∈ pySlice buf a b) :
    y ∈ buf := by
  unfold pySlice at h
  exact List.mem_of_mem_take (List.mem_of_mem_drop h)

theorem setField_mem {fs : Fields} {k : Nat} {v : Bytes} {p : Nat × Bytes}
    (h : p ∈ setField fs k v) : p = (k, v) ∨ p ∈ fs := by
  unfold setField at h
  rcases List.mem_cons.mp h with h1 | h1
  · exact Or.inl h1
  · exact Or.inr (List.mem_of_mem_filter h1)

theorem getField_mem {fs : Fields} {k : Nat} {v : Bytes} (h : getField fs k = some v) :
    (k, v) ∈ fs := by
  unfold getField at h
  cases hf : fs.find? (fun p => p.1 == k) with
  | none => rw [hf] at h; simp at h
  | some p =>
    rw [hf] at h
    simp at h
    have hm := List.mem_of_find?_eq_some hf
    have hk := List.find?_some hf
    cases p with
    | mk a b =>
      simp at hk h
      subst hk
      subst h
      exact hm

/-- Values stored by the plus-core field loop are slices of the scanned
    buffer (or come from the initial accumulator). -/
theorem parse_fields_values_plus (buf : Bytes) (limit : Nat) :
    ∀ n pos fields out pend,
      rsd_core_crc_plus.parse_fields buf limit n pos fields = .ok (out, pend) →
      (∀ p ∈ fields, ∀ y ∈ p.2, y ∈ buf) →
      ∀ p ∈ out, ∀ y ∈ p.2, y ∈ buf := by
  intro n
  induction n with
  | zero =>
    intro pos fields out pend h hfs
    simp [rsd_core_crc_plus.parse_fields] at h
    exact h.1 ▸ hfs
  | succ n ih =>
    intro pos fields out pend h hfs
    rw [rsd_core_crc_plus.parse_fields] at h
    cases hv : rsd_core_crc_plus.read_varuint_from buf pos limit with
    | error e => rw [hv] at h; simp at h
    | ok kp =>
      rw [hv] at h
      cases kp with
      | mk key pos1 =>
        simp only at h
        by_cases hlc : key &&& 7 = 7
        · rw [if_pos hlc] at h
          cases hv2 : rsd_core_crc_plus.read_varuint_from buf pos1 limit with
          | error e => rw [hv2] at h; simp at h
          | ok vp =>
            rw [hv2] at h
            cases vp with
            | mk vlen pos2 =>
              simp only at h
              by_cases hov : limit < pos2 + vlen
              · rw [if_pos hov] at h; simp at h
              · rw [if_neg hov] at h
                refine ih _ _ _ _ h ?_
                intro p hp y hy
                rcases setField_mem hp with hp1 | hp1
                · exact pySlice_subset (hp1 ▸ hy)
                · exact hfs p hp1 y hy
        · rw [if_neg hlc] at h
          by_cases hov : limit < pos1 + (key &&& 7)
          · rw [if_pos hov] at h; simp at h
          · rw [if_neg hov] at h
            refine ih _ _ _ _ h ?_
            intro p hp y hy
            rcases setField_mem hp with hp1 | hp1
            · exact pySlice_subset (hp1 ▸ hy)
            · exact hfs p hp1 y hy

/-- Same for the whole plus-core varstruct parser. -/
theorem parse_varstruct_values_plus (buf : Bytes) (pos limit : Nat) (mode : CrcMode)
    (out : Fields) (pend : Nat)
    (h : rsd_core_crc_plus.parse_varstruct buf pos limit mode = .ok (out, pend)) :
    ∀ p ∈ out, ∀ y ∈ p.2, y ∈ buf := by
  unfold rsd_core_crc_plus.parse_varstruct at h
  cases hv : rsd_core_crc_plus.read_varuint_from buf pos limit with
  | error e => rw [hv] at h; simp at h
  | ok np =>
    rw [hv] at h
    cases np with
    | mk n pos1 =>
      simp only at h
      by_cases hn : 20000 < n
      · rw [if_pos hn] at h; simp at h
      · rw [if_neg hn] at h
        cases hp : rsd_core_crc_plus.parse_fields buf limit n pos1 [] with
        | error e => rw [hp] at h; simp at h
        | ok fp =>
          rw [hp] at h
          cases fp with
          | mk fields pos2 =>
            simp only at h
            by_cases ht : limit < pos2 + 4
            · rw [if_pos ht] at h; simp at h
            · rw [if_neg ht] at h
              by_cases hc : mode = CrcMode.strict ∧
                  core_shared.crc32_custom (pySlice buf pos pos2) ≠ readU32 buf pos2
              · rw [if_pos hc] at h; simp at h
              · rw [if_neg hc] at h
                simp only [Except.ok.injEq, Prod.mk.injEq] at h
                have hout : fields = out := h.1
                exact hout ▸ parse_fields_values_plus buf limit n pos1 [] fields pos2 hp
                  (by intro p hp2; simp at hp2)

theorem coord_opt_range {buf : Bytes} {body : Fields}
    (hbytes : ∀ y ∈ buf, y < 256)
    (hbody : ∀ p ∈ body, ∀ y ∈ p.2, y ∈ buf) (k : Nat) :
    ∀ q, ((getField body k).map (fun v => mapunit_to_deg (rsd_core_crc_plus.i32D v)))
        = some q → -180 ≤ q ∧ q < 180 := by
  intro q hq
  cases hf : getField body k with
  | none => rw [hf] at hq; simp at hq
  | some v =>
    rw [hf] at hq
    simp at hq
    have hvb : ∀ y ∈ v, y < 256 := fun y hy => hbytes y (hbody _ (getField_mem hf) y hy)
    obtain ⟨r1, r2⟩ := i32D_range hvb
    obtain ⟨m1, m2⟩ := mapunit_range r1 r2
    exact hq ▸ ⟨m1, m2⟩

theorem build_rows_go_latlon (buf : Bytes) (mode : CrcMode)
    (hbytes : ∀ y ∈ buf, y < 256) :
    ∀ fuel i acc,
      (∀ r ∈ acc,
        (∀ q, r.lat = some q → -180 ≤ q ∧ q < 180) ∧
        (∀ q, r.lon = some q → -180 ≤ q ∧ q < 180)) →
      ∀ r ∈ rsd_core_crc_plus.build_rows_go buf mode fuel i acc,
        (∀ q, r.lat = some q → -180 ≤ q ∧ q < 180) ∧
        (∀ q, r.lon = some q → -180 ≤ q ∧ q < 180) := by
  intro fuel
  induction fuel with
  | zero =>
    intro i acc hacc r hr
    exact hacc r hr
  | succ fuel ih =>
    intro i acc hacc r hr
    simp only [rsd_core_crc_plus.build_rows_go] at hr
    by_cases h4 : i + 4 ≤ buf.length
    · rw [if_pos h4] at hr
      by_cases hmagic : pySlice buf i (i + 4) ≠ MAGIC_REC_HDR_LE
      · rw [if_pos hmagic] at hr
        exact ih _ _ hacc r hr
      · rw [if_neg hmagic] at hr
        cases hparse : rsd_core_crc_plus.parse_varstruct buf (i + 4) buf.length mode with
        | error e =>
          rw [hparse] at hr
          exact ih _ _ hacc r hr
        | ok hp =>
          rw [hparse] at hr
          cases hp with
          | mk hdr pos =>
            simp only at hr
            refine ih _ _ ?_ r hr
            intro r2 hr2
            rcases List.mem_append.mp hr2 with h2 | h2
            · exact hacc r2 h2
            · have hr2e : r2 = _ := List.mem_singleton.mp h2
              subst hr2e
              have hbody : ∀ p ∈ (match rsd_core_crc_plus.parse_varstruct buf pos
                    buf.length mode with
                  | .ok (b, _) => b
                  | .error _ => ([] : Fields)), ∀ y ∈ p.2, y ∈ buf := by
                cases hb : rsd_core_crc_plus.parse_varstruct buf pos buf.length mode with
                | error e => simp
                | ok bp =>
                  cases bp with
                  | mk b p2 =>
                    simp only
                    exact parse_varstruct_values_plus buf pos buf.length mode b p2 hb
              exact ⟨coord_opt_range hbytes hbody 9, coord_opt_range hbytes hbody 10⟩
    · rw [if_neg h4] at hr
      exact hacc r hr

/-- Values stored by the shared field loop are slices of the scanned
    buffer (or come from the initial accumulator). -/
theorem parse_fields_values_shared (buf : Bytes) (limit : Nat) :
    ∀ n pos fields out pend,
      core_shared.parse_fields buf limit n pos fields = .ok (out, pend) →
      (∀ p ∈ fields, ∀ y ∈ p.2, y ∈ buf) →
      ∀ p ∈ out, ∀ y ∈ p.2, y ∈ buf := by
  intro n
  induction n with
  | zero =>
    intro pos fields out pend h hfs
    simp [core_shared.parse_fields] at h
    exact h.1 ▸ hfs
  | succ n ih =>
    intro pos fields out pend h hfs
    rw [core_shared.parse_fields] at h
    cases hv : core_shared.read_varuint_from buf pos limit with
    | error e => rw [hv] at h; simp at h
    | ok kp =>
      rw [hv] at h
      cases kp with
      | mk key pos1 =>
        simp only at h
        by_cases hlc : key &&& 7 = 7
        · rw [if_pos hlc] at h
          cases hv2 : core_shared.read_varuint_from buf pos1 limit with
          | error e => rw [hv2] at h; simp at h
          | ok vp =>
            rw [hv2] at h
            cases vp with
            | mk vlen pos2 =>
              simp only at h
              by_cases hov : limit - pos2 < vlen
              · rw [if_pos hov] at h; simp at h
              · rw [if_neg hov] at h
                have h2 : (if limit < pos2 + vlen then
                      (.error "Varstruct value exceeds file size" :
                        Except String (Fields × Nat))
                    else core_shared.parse_fields buf limit n (pos2 + vlen)
                      (setField fields (key >>> 3) (pySlice buf pos2 (pos2 + vlen))))
                    = .ok (out, pend) := h
                by_cases hov2 : limit < pos2 + vlen
                · rw [if_pos hov2] at h2; simp at h2
                · rw [if_neg hov2] at h2
                  refine ih _ _ _ _ h2 ?_
                  intro p hp y hy
                  rcases setField_mem hp with hp1 | hp1
                  · exact pySlice_subset (hp1 ▸ hy)
                  · exact hfs p hp1 y hy
        · rw [if_neg hlc] at h
          have h2 : (if limit < pos1 + (key &&& 7) then
                (.error "Varstruct value exceeds file size" :
                  Except String (Fields × Nat))
              else core_shared.parse_fields buf limit n (pos1 + (key &&& 7))
                (setField fields (key >>> 3) (pySlice buf pos1 (pos1 + (key &&& 7)))))
              = .ok (out, pend) := h
          by_cases hov2 : limit < pos1 + (key &&& 7)
          · rw [if_pos hov2] at h2; simp at h2
          · rw [if_neg hov2] at h2
            refine ih _ _ _ _ h2 ?_
            intro p hp y hy
            rcases setField_mem hp with hp1 | hp1
            · exact pySlice_subset (hp1 ▸ hy)
            · exact hfs p hp1 y hy

/-- Same for the whole shared varstruct parser. -/
theorem parse_varstruct_values_shared (buf : Bytes) (pos limit : Nat) (mode : CrcMode)
    (out : Fields) (pend : Nat)
    (h : core_shared.parse_varstruct buf pos limit mode = .ok (out, pend)) :
    ∀ p ∈ out, ∀ y ∈ p.2, y ∈ buf := by
  simp only [core_shared.parse_varstruct] at h
  split at h
  · simp at h
  · rename_i n pos1 hv
    split at h
    · simp at h
    · split at h
      · simp at h
      · rename_i fields pos2 hpf
        split at h
        · simp at h
        · split at h
          · simp at h
          · first
            | simp only [Except.ok.injEq, Prod.mk.injEq] at h
            | skip
            obtain ⟨h1, h2⟩ := h
            exact h1 ▸ parse_fields_values_shared buf limit n pos1 [] fields pos2 hpf
              (by intro p hp2; simp at hp2)

/-- Range of the classic coordinate extraction
    (`_mapunit_to_deg(int.from_bytes(v[:4], ...))` on a 4-byte field). -/
theorem coord_bind_range {buf : Bytes} {body : Fields}
    (hbytes : ∀ y ∈ buf, y < 256)
    (hbody : ∀ p ∈ body, ∀ y ∈ p.2, y ∈ buf) (k : Nat) :
    ∀ q, ((getField body k).bind (fun v =>
        if 4 ≤ v.length then some (mapunit_to_deg (readI32 v 0)) else none)) = some q →
      -180 ≤ q ∧ q < 180 := by
  intro q hq
  cases hf : getField body k with
  | none => rw [hf] at hq; simp at hq
  | some v =>
    rw [hf] at hq
    have hq2 : (if 4 ≤ v.length then some (mapunit_to_deg (readI32 v 0)) else none)
        = some q := hq
    split at hq2
    · simp only [Option.some.injEq] at hq2
      have hvb : ∀ y ∈ v, y < 256 := fun y hy => hbytes y (hbody _ (getField_mem hf) y hy)
      obtain ⟨r1, r2⟩ := readI32_range hvb 0
      obtain ⟨m1, m2⟩ := mapunit_range r1 r2
      exact hq2 ▸ ⟨m1, m2⟩
    · simp at hq2

/-- Every record the classic engine emits in one step carries in-range
    map-unit coordinates. -/
theorem classic_step_latlon (buf : Bytes) (pos limit : Nat)
    (hbytes : ∀ y ∈ buf, y < 256) :
    ∀ r next, engine_classic_varstruct.step buf pos limit = .emit r next →
      (∀ q, r.lat = some q → -180 ≤ q ∧ q < 180) ∧
      (∀ q, r.lon = some q → -180 ≤ q ∧ q < 180) := by
  intro r next h
  simp only [engine_classic_varstruct.step] at h
  split at h
  · simp at h
  · split at h
    · simp at h
    · split at h
      · simp at h
      · split at h
        · simp at h
        · split at h <;>
            (split at h
             · simp at h
             · split at h
               · simp at h
               · rename_i body bend hpv
                 split at h
                 · simp at h
                 · split at h
                   · simp at h
                   · first
                     | simp only [engine_classic_varstruct.Step.emit.injEq] at h
                     | skip
                     obtain ⟨hr, hn⟩ := h
                     have hvals := parse_varstruct_values_shared buf _ limit
                       CrcMode.strict body bend hpv
                     have hlat : r.lat = (getField body 9).bind (fun v =>
                         if 4 ≤ v.length then some (mapunit_to_deg (readI32 v 0))
                         else none) := by
                       rw [← hr]
                       rfl
                     have hlon : r.lon = (getField body 10).bind (fun v =>
                         if 4 ≤ v.length then some (mapunit_to_deg (readI32 v 0))
                         else none) := by
                       rw [← hr]
                       rfl
                     exact ⟨fun q hq => coord_bind_range hbytes hvals 9 q (hlat ▸ hq),
                            fun q hq => coord_bind_range hbytes hvals 10 q (hlon ▸ hq)⟩)

/-- Range propagated through the classic scan loop. -/
theorem classic_iter_go_latlon (buf : Bytes) (limit : Nat) (cap : Option Nat)
    (hbytes : ∀ y ∈ buf, y < 256) :
    ∀ fuel pos count r,
      r ∈ engine_classic_varstruct.iter_go buf limit cap fuel pos count →
      (∀ q, r.lat = some q → -180 ≤ q ∧ q < 180) ∧
      (∀ q, r.lon = some q → -180 ≤ q ∧ q < 180) := by
  intro fuel
  induction fuel with
  | zero =>
    intro pos count r hr
    simp [engine_classic_varstruct.iter_go] at hr
  | succ fuel ih =>
    intro pos count r hr
    simp only [engine_classic_varstruct.iter_go] at hr
    split at hr
    · split at hr
      · simp at hr
      · simp at hr
      · exact ih _ _ r hr
      · rename_i r2 next hemit
        have hsp := classic_step_latlon buf pos limit hbytes r2 next hemit
        split at hr
        · rename_i c
          split at hr
          · simp at hr
            rw [hr]
            exact hsp
          · rcases List.mem_cons.mp hr with h1 | h1
            · rw [h1]; exact hsp
            · exact ih _ _ r h1
        · rcases List.mem_cons.mp hr with h1 | h1
          · rw [h1]; exact hsp
          · exact ih _ _ r h1
    · simp at hr

/-- C8 (corrected): a record emitted by the strict core or by the
    classic (strict varstruct) engine lies in `[-180, 180)` for latitude
    and longitude alike — both decoders apply the map-unit scale
    `360 / 2^32` to a signed 32 bit value without any latitude-specific
    clamp to `[-90, 90]`, so latitudes up to (but not including) 180
    degrees are emitted.  (The tolerant engine does not decode
    coordinates as map units at all: it reinterprets the raw bytes as
    IEEE float32.) -/
theorem c8_latlon_range (buf : Bytes) (mode : CrcMode)
    (start limit : Nat) (cap : Option Nat)
    (hbytes : ∀ y ∈ buf, y < 256) :
    (∀ r ∈ rsd_core_crc_plus.build_rows_and_assets buf mode,
      (∀ q, r.lat = some q → -180 ≤ q ∧ q < 180) ∧
      (∀ q, r.lon = some q → -180 ≤ q ∧ q < 180)) ∧
    (∀ r ∈ engine_classic_varstruct.iter_records buf start limit cap,
      (∀ q, r.lat = some q → -180 ≤ q ∧ q < 180) ∧
      (∀ q, r.lon = some q → -180 ≤ q ∧ q < 180)) :=
  ⟨build_rows_go_latlon buf mode hbytes (buf.length + 1) 0 [] (by intro r hr; simp at hr),
   fun r hr => classic_iter_go_latlon buf limit cap hbytes (limit + 1) start 0 r hr⟩

/-- Witness for C8: the strict core (at `c8_demo`) and the classic
    engine (at `c8_classic_demo`) both emit a record with
    `lat = mapunit_to_deg 2147483647`, which the theorem brackets into
    `[-180, 180)`. -/
theorem c8_latlon_range_witness :
    rsd_core_crc_plus.build_rows_and_assets c8_demo CrcMode.warn
      = [⟨0, 0, 0, 0, some (mapunit_to_deg 2147483647), none, none⟩] ∧
    engine_classic_varstruct.iter_records c8_classic_demo 0 39 none
      = [⟨0, none, 0, 0, 10, some (mapunit_to_deg 2147483647), none, none, none,
          none, none, none, none, none, none, none, none, none, []⟩] ∧
    (-180 ≤ mapunit_to_deg 2147483647 ∧ mapunit_to_deg 2147483647 < 180) :=
  ⟨rfl, rfl,
    (((c8_latlon_range c8_classic_demo CrcMode.warn 0 39 none (by decide)).2
      ⟨0, none, 0, 0, 10, some (mapunit_to_deg 2147483647), none, none, none,
        none, none, none, none, none, none, none, none, none, []⟩
      (by rw [show engine_classic_varstruct.iter_records c8_classic_demo 0 39 none
          = [⟨0, none, 0, 0, 10, some (mapunit_to_deg 2147483647), none, none, none,
              none, none, none, none, none, none, none, none, none, []⟩] from rfl]
          ; exact List.mem_singleton.mpr rfl)).1
    (mapunit_to_deg 2147483647) rfl)⟩

/-- C8 counterexample: the strict core emits a record whose latitude is
    `2147483647 * 360 / 2^32 ≈ 179.999`, far outside `[-90, 90]`. -/
theorem c8_counterexample :
    rsd_core_crc_plus.build_rows_and_assets c8_demo CrcMode.warn
      = [⟨0, 0, 0, 0, some (mapunit_to_deg 2147483647), none, none⟩] ∧
    90 < mapunit_to_deg 2147483647 :=
  ⟨rfl, by norm_num [mapunit_to_deg]⟩

/-! ## Claim C9 — strictly increasing offsets -/

theorem find_bytes_go_ge (buf pat : Bytes) (e : Nat) :
    ∀ fuel i, ¬ find_bytes_go buf pat e fuel i < 0 →
      i ≤ (find_bytes_go buf pat e fuel i).toNat := by
  intro fuel
  induction fuel with
  | zero => intro i h; exact absurd (by norm_num [find_bytes_go]) h
  | succ fuel ih =>
    intro i h
    rw [find_bytes_go] at h ⊢
    by_cases h1 : i + pat.length ≤ e
    · rw [if_pos h1] at h ⊢
      by_cases h2 : pySlice buf i (i + pat.length) = pat
      · rw [if_pos h2] at h ⊢
        simp
      · rw [if_neg h2] at h ⊢
        exact le_trans (by omega) (ih (i + 1) h)
    · rw [if_neg h1] at h
      exact absurd (by norm_num) h

theorem find_bytes_ge (buf pat : Bytes) (s e : Nat)
    (h : ¬ find_bytes buf pat s e < 0) :
    s ≤ (find_bytes buf pat s e).toNat :=
  find_bytes_go_ge buf pat e _ s h

theorem find_bytes_go_neg_or (buf pat : Bytes) (e : Nat) :
    ∀ fuel i, find_bytes_go buf pat e fuel i = -1 ∨ 0 ≤ find_bytes_go buf pat e fuel i := by
  intro fuel
  induction fuel with
  | zero => intro i; exact Or.inl rfl
  | succ fuel ih =>
    intro i
    rw [find_bytes_go]
    by_cases h1 : i + pat.length ≤ e
    · rw [if_pos h1]
      by_cases h2 : pySlice buf i (i + pat.length) = pat
      · rw [if_pos h2]; exact Or.inr (by positivity)
      · rw [if_neg h2]; exact ih (i + 1)
    · rw [if_neg h1]; exact Or.inl rfl

theorem find_bytes_neg_or (buf pat : Bytes) (s e : Nat) :
    find_bytes buf pat s e = -1 ∨ 0 ≤ find_bytes buf pat s e :=
  find_bytes_go_neg_or buf pat e _ s

theorem find_magic_go_ge (buf pat : Bytes) (endp chunk : Nat) :
    ∀ fuel s, ¬ core_shared.find_magic_go buf pat endp chunk fuel s < 0 →
      s ≤ (core_shared.find_magic_go buf pat endp chunk fuel s).toNat := by
  intro fuel
  induction fuel with
  | zero => intro s h; exact absurd (by norm_num [core_shared.find_magic_go]) h
  | succ fuel ih =>
    intro s h
    rw [core_shared.find_magic_go] at h ⊢
    by_cases h1 : s < endp
    · rw [if_pos h1] at h ⊢
      by_cases h2 : find_bytes buf pat s (min endp (s + chunk)) ≠ -1
      · rw [if_pos h2] at h ⊢
        have h3 : ¬ find_bytes buf pat s (min endp (s + chunk)) < 0 := by
          rcases find_bytes_neg_or buf pat s (min endp (s + chunk)) with hv | hv
          · exact absurd hv h2
          · omega
        exact find_bytes_ge buf pat s _ h3
      · rw [if_neg h2] at h ⊢
        exact le_trans (by omega) (ih (min endp (s + chunk)) h)
    · rw [if_neg h1] at h
      exact absurd (by norm_num) h

theorem find_magic_ge (buf pat : Bytes) (start endp chunk : Nat)
    (h : ¬ core_shared.find_magic buf pat start endp chunk < 0) :
    start ≤ (core_shared.find_magic buf pat start endp chunk).toNat := by
  rw [core_shared.find_magic] at h ⊢
  by_cases h1 : min buf.length endp ≤ start
  · rw [if_pos h1] at h
    exact absurd (by norm_num) h
  · rw [if_neg h1] at h ⊢
    by_cases h2 : min buf.length endp - start ≤ chunk
    · rw [if_pos h2] at h ⊢
      exact find_bytes_ge buf pat start _ h
    · rw [if_neg h2] at h ⊢
      exact find_magic_go_ge buf pat _ chunk _ start h

theorem read_varuint_go_pos_shared (buf : Bytes) (limit : Nat) :
    ∀ fuel pos res shift v p',
      core_shared.read_varuint_go buf limit pos fuel res shift = .ok (v, p') →
      pos < p' ∧ p' ≤ limit := by
  intro fuel
  induction fuel with
  | zero =>
    intro pos res shift v p' h
    simp [core_shared.read_varuint_go] at h
  | succ fuel ih =>
    intro pos res shift v p' h
    rw [core_shared.read_varuint_go] at h
    by_cases hc : pos < limit ∧ shift < 35
    · rw [if_pos hc] at h
      by_cases hfin : 28 ≤ shift ∧ 0x0F < byteAt buf pos &&& 0x7F
      · rw [if_pos hfin] at h; simp at h
      · rw [if_neg hfin] at h
        by_cases hov : 0xFFFFFFFF < res ||| ((byteAt buf pos &&& 0x7F) <<< shift)
        · rw [if_pos hov] at h; simp at h
        · rw [if_neg hov] at h
          by_cases hterm : byteAt buf pos &&& 0x80 = 0
          · rw [if_pos hterm] at h
            simp only [Except.ok.injEq, Prod.mk.injEq] at h
            omega
          · rw [if_neg hterm] at h
            have := ih _ _ _ _ _ h
            omega
    · rw [if_neg hc] at h; simp at h

theorem read_varuint_from_pos_shared (buf : Bytes) (pos limit v p' : Nat)
    (h : core_shared.read_varuint_from buf pos limit = .ok (v, p')) :
    pos < p' ∧ p' ≤ limit :=
  read_varuint_go_pos_shared buf limit 5 pos 0 0 v p' h

theorem parse_fields_pos_shared (buf : Bytes) (limit : Nat) :
    ∀ n pos fields out pend,
      core_shared.parse_fields buf limit n pos fields = .ok (out, pend) →
      pos ≤ pend := by
  intro n
  induction n with
  | zero =>
    intro pos fields out pend h
    simp [core_shared.parse_fields] at h
    omega
  | succ n ih =>
    intro pos fields out pend h
    rw [core_shared.parse_fields] at h
    cases hv : core_shared.read_varuint_from buf pos limit with
    | error e => rw [hv] at h; simp at h
    | ok kp =>
      rw [hv] at h
      cases kp with
      | mk key pos1 =>
        have hp1 := read_varuint_from_pos_shared buf pos limit key pos1 hv
        simp only at h
        by_cases hlc : key &&& 7 = 7
        · rw [if_pos hlc] at h
          cases hv2 : core_shared.read_varuint_from buf pos1 limit with
          | error e => rw [hv2] at h; simp at h
          | ok vp =>
            rw [hv2] at h
            cases vp with
            | mk vlen pos2 =>
              have hp2 := read_varuint_from_pos_shared buf pos1 limit vlen pos2 hv2
              simp only at h
              by_cases hov : limit - pos2 < vlen
              · rw [if_pos hov] at h; simp at h
              · rw [if_neg hov] at h
                have h2 : (if limit < pos2 + vlen then
                      (Except.error "Varstruct value exceeds file size"
                        : Except String (Fields × Nat))
                    else core_shared.parse_fields buf limit n (pos2 + vlen)
                      (setField fields (key >>> 3) (pySlice buf pos2 (pos2 + vlen))))
                    = .ok (out, pend) := h
                by_cases hov2 : limit < pos2 + vlen
                · rw [if_pos hov2] at h2; simp at h2
                · rw [if_neg hov2] at h2
                  have := ih _ _ _ _ h2
                  omega
        · rw [if_neg hlc] at h
          have h2 : (if limit < pos1 + (key &&& 7) then
                (Except.error "Varstruct value exceeds file size"
                  : Except String (Fields × Nat))
              else core_shared.parse_fields buf limit n (pos1 + (key &&& 7))
                (setField fields (key >>> 3) (pySlice buf pos1 (pos1 + (key &&& 7)))))
              = .ok (out, pend) := h
          by_cases hov2 : limit < pos1 + (key &&& 7)
          · rw [if_pos hov2] at h2; simp at h2
          · rw [if_neg hov2] at h2
            have := ih _ _ _ _ h2
            omega

theorem parse_varstruct_pos_shared (buf : Bytes) (pos limit : Nat) (mode : CrcMode)
    (out : Fields) (pend : Nat)
    (h : core_shared.parse_varstruct buf pos limit mode = .ok (out, pend)) :
    pos < pend := by
  unfold core_shared.parse_varstruct at h
  set pos0 := if pos + 4 ≤ limit ∧ readU32 buf pos = MAGIC_REC_HDR then pos + 4 else pos
    with hpos0
  have hpos0ge : pos ≤ pos0 := by
    rw [hpos0]
    by_cases hm : pos + 4 ≤ limit ∧ readU32 buf pos = MAGIC_REC_HDR
    · rw [if_pos hm]; omega
    · rw [if_neg hm]
  have h2 : (match core_shared.read_varuint_from buf pos0 limit with
      | Except.error e =>
        Except.error (if mode = CrcMode.warn then e else "NameError: name n is not defined")
      | Except.ok (n, pos1) =>
        if 50 < n ∧ mode = CrcMode.warn then Except.error "Unreasonable field count"
        else
          match core_shared.parse_fields buf limit n pos1 [] with
          | Except.error e => Except.error e
          | Except.ok (fields, pos2) =>
            if limit < pos2 + 4 then Except.error "Truncated before CRC"
            else
              if mode = CrcMode.strict ∧
                  core_shared.crc32_custom (pySlice buf pos pos2) ≠ readU32 buf pos2 then
                Except.error "CRC mismatch"
              else Except.ok (fields, pos2 + 4)) = Except.ok (out, pend) := h
  clear h
  rename' h2 => h
  cases hv : core_shared.read_varuint_from buf pos0 limit with
  | error e => rw [hv] at h; simp at h
  | ok np =>
    rw [hv] at h
    cases np with
    | mk n pos1 =>
      have hp1 := read_varuint_from_pos_shared buf pos0 limit n pos1 hv
      simp only at h
      by_cases hn : 50 < n ∧ mode = CrcMode.warn
      · rw [if_pos hn] at h; simp at h
      · rw [if_neg hn] at h
        cases hp : core_shared.parse_fields buf limit n pos1 [] with
        | error e => rw [hp] at h; simp at h
        | ok fp =>
          rw [hp] at h
          cases fp with
          | mk fields pos2 =>
            have hp2 := parse_fields_pos_shared buf limit n pos1 [] fields pos2 hp
            simp only at h
            by_cases ht : limit < pos2 + 4
            · rw [if_pos ht] at h; simp at h
            · rw [if_neg ht] at h
              by_cases hc : mode = CrcMode.strict ∧
                  core_shared.crc32_custom (pySlice buf pos pos2) ≠ readU32 buf pos2
              · rw [if_pos hc] at h; simp at h
              · rw [if_neg hc] at h
                simp only [Except.ok.injEq, Prod.mk.injEq] at h
                omega

theorem header_stage_body_start {buf : Bytes} {pm limit bs seq tms ds : Nat}
    (h : engine_nextgen_syncfirst.header_stage buf pm limit = some (bs, seq, tms, ds)) :
    pm < bs := by
  simp only [engine_nextgen_syncfirst.header_stage] at h
  split at h
  · simp at h
  · split at h
    · simp at h
    · rename_i n p hv hn
      split at h
      · simp at h
      · rename_i hdr body_start hpv
        split at h
        · simp at h
        · split at h
          · simp at h
          · rename_i f0 hf0
            split at h
            · simp at h
            · split at h
              · rename_i f2 f5 hf2 hf5
                split at h
                · simp at h
                · split at h
                  · simp at h
                  · split at h
                    · simp at h
                    · simp only [Option.some.injEq, Prod.mk.injEq] at h
                      have hbs : body_start = bs := h.1
                      exact hbs ▸ parse_varstruct_pos_shared buf pm limit CrcMode.warn
                        hdr body_start hpv
              · simp at h

theorem body_stage_ofs {buf : Bytes} {pm seq tms bs ds limit : Nat}
    {r : engine_nextgen_syncfirst.NGRecord}
    (h : engine_nextgen_syncfirst.body_stage buf pm seq tms bs ds limit = some r) :
    r.ofs = pm := by
  unfold engine_nextgen_syncfirst.body_stage at h
  split at h
  · simp at h
  · split at h
    · simp at h
    · split at h
      · simp only [Option.some.injEq] at h
        rw [← h]
      · simp at h

theorem ng_step_spec (buf : Bytes) (pos limit : Nat) :
    (∀ next, engine_nextgen_syncfirst.step buf pos limit = .skip next → pos < next) ∧
    (∀ r next, engine_nextgen_syncfirst.step buf pos limit = .emit r next →
      pos ≤ r.ofs ∧ r.ofs < next) := by
  have hstep : engine_nextgen_syncfirst.step buf pos limit = _ := rfl
  constructor
  · intro next h
    simp only [engine_nextgen_syncfirst.step] at h
    split at h
    · simp at h
    · rename_i hneg
      have hge : pos ≤ (core_shared.find_magic buf MAGIC_REC_HDR_LE pos limit
          FIND_CHUNK).toNat := find_magic_ge _ _ _ _ _ hneg
      split at h
      · simp only [engine_nextgen_syncfirst.Step.skip.injEq] at h
        omega
      · split at h
        · simp only [engine_nextgen_syncfirst.Step.skip.injEq] at h
          omega
        · rename_i bs seq tms ds heq
          have hbs := header_stage_body_start heq
          split at h
          · simp at h
          · split at h
            · simp only [engine_nextgen_syncfirst.Step.skip.injEq] at h
              omega
            · simp at h
  · intro r next h
    simp only [engine_nextgen_syncfirst.step] at h
    split at h
    · simp at h
    · rename_i hneg
      have hge : pos ≤ (core_shared.find_magic buf MAGIC_REC_HDR_LE pos limit
          FIND_CHUNK).toNat := find_magic_ge _ _ _ _ _ hneg
      split at h
      · simp at h
      · split at h
        · simp at h
        · rename_i bs seq tms ds heq
          have hbs := header_stage_body_start heq
          split at h
          · simp at h
          · split at h
            · simp at h
            · rename_i r2 hbody
              simp only [engine_nextgen_syncfirst.Step.emit.injEq] at h
              obtain ⟨hr, hn⟩ := h
              have hofs := body_stage_ofs hbody
              rw [← hr, hofs]
              omega

theorem ng_iter_go_ofs_ge (buf : Bytes) (limit : Nat) (cap : Option Nat) :
    ∀ fuel pos count r,
      r ∈ engine_nextgen_syncfirst.iter_go buf limit cap fuel pos count →
      pos ≤ r.ofs := by
  intro fuel
  induction fuel with
  | zero =>
    intro pos count r hr
    simp [engine_nextgen_syncfirst.iter_go] at hr
  | succ fuel ih =>
    intro pos count r hr
    simp only [engine_nextgen_syncfirst.iter_go] at hr
    split at hr
    · split at hr
      · simp at hr
      · rename_i next hskip
        have h1 := (ng_step_spec buf pos limit).1 next hskip
        have h2 := ih next count r hr
        omega
      · rename_i r2 next hemit
        have hsp := (ng_step_spec buf pos limit).2 r2 next hemit
        split at hr
        · rename_i c
          split at hr
          · simp at hr
          · rcases List.mem_cons.mp hr with h1 | h1
            · rw [h1]; exact hsp.1
            · have := ih next (count + 1) r h1
              omega
        · rcases List.mem_cons.mp hr with h1 | h1
          · rw [h1]; exact hsp.1
          · have := ih next (count + 1) r h1
            omega
    · simp at hr

theorem ng_iter_go_chain (buf : Bytes) (limit : Nat) (cap : Option Nat) :
    ∀ fuel pos count,
      List.Chain' (· < ·)
        ((engine_nextgen_syncfirst.iter_go buf limit cap fuel pos count).map
          engine_nextgen_syncfirst.NGRecord.ofs) := by
  intro fuel
  induction fuel with
  | zero =>
    intro pos count
    simp [engine_nextgen_syncfirst.iter_go]
  | succ fuel ih =>
    intro pos count
    simp only [engine_nextgen_syncfirst.iter_go]
    split
    · split
      · simp
      · exact ih _ _
      · rename_i r2 next hemit
        have hsp := (ng_step_spec buf pos limit).2 r2 next hemit
        have hchain : ∀ count2, List.Chain' (· < ·)
            ((r2 :: engine_nextgen_syncfirst.iter_go buf limit cap fuel next count2).map
              engine_nextgen_syncfirst.NGRecord.ofs) := by
          intro count2
          rw [List.map_cons]
          apply List.chain'_cons'.mpr
          refine ⟨?_, ih _ _⟩
          intro b hb
          have hbmem : b ∈ (engine_nextgen_syncfirst.iter_go buf limit cap fuel next
              count2).map engine_nextgen_syncfirst.NGRecord.ofs :=
            List.mem_of_mem_head? hb
          obtain ⟨rec2, hrec2, hrx⟩ := List.mem_map.mp hbmem
          have hge2 := ng_iter_go_ofs_ge buf limit cap fuel next count2 rec2 hrec2
          omega
        split
        · split
          · simp
          · exact hchain _
        · exact hchain _
    · simp

theorem classic_step_spec (buf : Bytes) (pos limit : Nat) :
    (∀ next, engine_classic_varstruct.step buf pos limit = .skip next → pos < next) ∧
    (∀ r next, engine_classic_varstruct.step buf pos limit = .emit r next →
      pos ≤ r.ofs ∧ r.ofs < next) := by
  constructor
  · intro next h
    simp only [engine_classic_varstruct.step] at h
    split at h
    · first | omega | (injection h with h <;> omega) | simp at h
    · rename_i hneg
      have hge : pos ≤ (find_bytes buf MAGIC_REC_HDR_LE pos limit).toNat :=
        find_bytes_ge buf MAGIC_REC_HDR_LE pos limit hneg
      split at h
      · first | omega | (injection h with h <;> omega) | simp at h
      · split at h
        · first | omega | (injection h with h <;> omega) | simp at h
        · split at h
          · first | omega | (injection h with h <;> omega) | simp at h
          · split at h <;>
              (split at h
               · first | omega | (injection h with h <;> omega) | simp at h
               · split at h
                 · first | omega | (injection h with h <;> omega) | simp at h
                 · split at h
                   · first | omega | (injection h with h <;> omega) | simp at h
                   · split at h
                     · first | omega | (injection h with h <;> omega) | simp at h
                     · first | omega | (injection h with h <;> omega) | simp at h)
  · intro r next h
    simp only [engine_classic_varstruct.step] at h
    split at h
    · simp at h
    · rename_i hneg
      have hge : pos ≤ (find_bytes buf MAGIC_REC_HDR_LE pos limit).toNat :=
        find_bytes_ge buf MAGIC_REC_HDR_LE pos limit hneg
      split at h
      · simp at h
      · split at h
        · simp at h
        · split at h
          · simp at h
          · split at h <;>
              (split at h
               · simp at h
               · split at h
                 · simp at h
                 · split at h
                   · simp at h
                   · split at h
                     · simp at h
                     · rename_i hcond
                       push_neg at hcond
                       have hcs := hcond.2
                       first
                       | simp only [engine_classic_varstruct.Step.emit.injEq] at h
                       | skip
                       obtain ⟨hr, hn⟩ := h
                       have hofs : r.ofs = (find_bytes buf MAGIC_REC_HDR_LE pos
                           limit).toNat := by
                         rw [← hr]
                         rfl
                       rw [hofs, ← hn]
                       exact ⟨hge, by omega⟩)


theorem classic_iter_go_ofs_ge (buf : Bytes) (limit : Nat) (cap : Option Nat) :
    ∀ fuel pos count r,
      r ∈ engine_classic_varstruct.iter_go buf limit cap fuel pos count →
      pos ≤ r.ofs := by
  intro fuel
  induction fuel with
  | zero =>
    intro pos count r hr
    simp [engine_classic_varstruct.iter_go] at hr
  | succ fuel ih =>
    intro pos count r hr
    simp only [engine_classic_varstruct.iter_go] at hr
    split at hr
    · split at hr
      · simp at hr
      · simp at hr
      · rename_i next hskip
        have h1 := (classic_step_spec buf pos limit).1 next hskip
        have h2 := ih next count r hr
        omega
      · rename_i r2 next hemit
        have hsp := (classic_step_spec buf pos limit).2 r2 next hemit
        split at hr
        · rename_i c
          split at hr
          · simp at hr
            rw [hr]
            exact hsp.1
          · rcases List.mem_cons.mp hr with h1 | h1
            · rw [h1]; exact hsp.1
            · have := ih next (count + 1) r h1
              omega
        · rcases List.mem_cons.mp hr with h1 | h1
          · rw [h1]; exact hsp.1
          · have := ih next (count + 1) r h1
            omega
    · simp at hr

theorem classic_iter_go_chain (buf : Bytes) (limit : Nat) (cap : Option Nat) :
    ∀ fuel pos count,
      List.Chain' (· < ·)
        ((engine_classic_varstruct.iter_go buf limit cap fuel pos count).map
          engine_classic_varstruct.ClassicRecord.ofs) := by
  intro fuel
  induction fuel with
  | zero =>
    intro pos count
    simp [engine_classic_varstruct.iter_go]
  | succ fuel ih =>
    intro pos count
    simp only [engine_classic_varstruct.iter_go]
    split
    · split
      · simp
      · simp
      · exact ih _ _
      · rename_i r2 next hemit
        have hsp := (classic_step_spec buf pos limit).2 r2 next hemit
        have hchain : ∀ count2, List.Chain' (· < ·)
            ((r2 :: engine_classic_varstruct.iter_go buf limit cap fuel next count2).map
              engine_classic_varstruct.ClassicRecord.ofs) := by
          intro count2
          rw [List.map_cons]
          apply List.chain'_cons'.mpr
          refine ⟨?_, ih _ _⟩
          intro b hb
          have hbmem : b ∈ (engine_classic_varstruct.iter_go buf limit cap fuel next
              count2).map engine_classic_varstruct.ClassicRecord.ofs :=
            List.mem_of_mem_head? hb
          obtain ⟨rec2, hrec2, hrx⟩ := List.mem_map.mp hbmem
          have hge2 := classic_iter_go_ofs_ge buf limit cap fuel next count2 rec2 hrec2
          omega
        split
        · split
          · simp
          · exact hchain _
        · exact hchain _
    · simp

/-- C9: for every input buffer, start position, scan limit and record cap,
    both engines (the strict `engine_classic_varstruct` and the tolerant
    `engine_nextgen_syncfirst`) emit records whose `ofs` values are strictly
    increasing; in particular the emitted offsets contain no duplicate. -/
theorem c9_offsets_strictly_increase (buf : Bytes) (start limit : Nat)
    (cap : Option Nat) :
    (List.Chain' (· < ·)
      ((engine_classic_varstruct.iter_records buf start limit cap).map
        engine_classic_varstruct.ClassicRecord.ofs) ∧
     ((engine_classic_varstruct.iter_records buf start limit cap).map
        engine_classic_varstruct.ClassicRecord.ofs).Nodup) ∧
    (List.Chain' (· < ·)
      ((engine_nextgen_syncfirst.iter_records buf start limit cap).map
        engine_nextgen_syncfirst.NGRecord.ofs) ∧
     ((engine_nextgen_syncfirst.iter_records buf start limit cap).map
        engine_nextgen_syncfirst.NGRecord.ofs).Nodup) := by
  have h1 := classic_iter_go_chain buf limit cap (limit + 1) start 0
  have h2 := ng_iter_go_chain buf limit cap (limit + 1) start 0
  have hp1 := (List.chain'_iff_pairwise).mp h1
  have hp2 := (List.chain'_iff_pairwise).mp h2
  exact ⟨⟨h1, hp1.imp (fun hab => Nat.ne_of_lt hab)⟩,
         ⟨h2, hp2.imp (fun hab => Nat.ne_of_lt hab)⟩⟩

theorem pad_skip_go_stop (buf : Bytes) (size fuel pe : Nat)
    (h : ¬ (pe + 1 < size ∧
      ((byteAt buf pe = 0xA1 ∧ byteAt buf (pe + 1) = 0xB2) ∨
       (byteAt buf pe = 0xB2 ∧ byteAt buf (pe + 1) = 0xA1)))) :
    rsd_core_crc_plus.pad_skip_go buf size fuel pe = pe := by
  cases fuel with
  | zero => rfl
  | succ fuel =>
    simp only [rsd_core_crc_plus.pad_skip_go]
    split
    · rename_i h1
      split
      · rename_i h2
        exact absurd ⟨h1, h2⟩ h
      · rfl
    · rfl

/-- C10: in the strict core `build_rows_and_assets`, when the header
    varstruct at a magic hit parses successfully but the body varstruct
    fails, the candidate is not rejected: a record with `lat`, `lon` and
    `depth_m` all absent is appended at the header offset, and the scan
    cursor resumes at `body_start + max 0 data_size` (here with no
    trailer magic or pad pair following, which would be skipped over in
    addition). -/
theorem c10_body_failure_keeps_record (buf : Bytes) (mode : CrcMode)
    (fuel i pos ds pe : Nat) (recs : List rsd_core_crc_plus.RSDRecord)
    (hdr : Fields) (e : String)
    (h4 : i + 4 ≤ buf.length)
    (hmagic : pySlice buf i (i + 4) = MAGIC_REC_HDR_LE)
    (hhdr : rsd_core_crc_plus.parse_varstruct buf (i + 4) buf.length mode
      = .ok (hdr, pos))
    (hbody : rsd_core_crc_plus.parse_varstruct buf pos buf.length mode = .error e)
    (hds : rsd_core_crc_plus.u16D (getFieldD hdr 4 []) = ds)
    (hpe : pos + max 0 ds = pe)
    (htrl : ¬ (pe + 4 ≤ buf.length ∧
      pySlice buf pe (pe + 4) = MAGIC_REC_TRL_PLUS_LE))
    (hpad : ¬ (pe + 1 < buf.length ∧
      ((byteAt buf pe = 0xA1 ∧ byteAt buf (pe + 1) = 0xB2) ∨
       (byteAt buf pe = 0xB2 ∧ byteAt buf (pe + 1) = 0xA1)))) :
    rsd_core_crc_plus.build_rows_go buf mode (fuel + 1) i recs =
      rsd_core_crc_plus.build_rows_go buf mode fuel pe
        (recs ++ [⟨i, rsd_core_crc_plus.u32D (getFieldD hdr 2 []),
          rsd_core_crc_plus.u32D (getFieldD hdr 5 []), ds,
          none, none, none⟩]) := by
  have hpad2 := pad_skip_go_stop buf buf.length buf.length pe hpad
  have hpe2 : pos + ds = pe := by omega
  simp only [rsd_core_crc_plus.build_rows_go]
  rw [if_pos h4, if_neg (fun hne => hne hmagic), hhdr]
  simp [hbody, hds, hpe2, hpad2, htrl, getField, Nat.zero_max]

theorem c10_body_failure_keeps_record_witness :
    rsd_core_crc_plus.parse_varstruct c10_demo 4 c10_demo.length CrcMode.warn
      = .ok ([], 9) ∧
    rsd_core_crc_plus.parse_varstruct c10_demo 9 c10_demo.length CrcMode.warn
      = .error "VarUInt overflow" ∧
    rsd_core_crc_plus.build_rows_go c10_demo CrcMode.warn 1 0 [] =
      rsd_core_crc_plus.build_rows_go c10_demo CrcMode.warn 0 9
        [⟨0, 0, 0, 0, none, none, none⟩] :=
  ⟨rfl, rfl,
    c10_body_failure_keeps_record c10_demo CrcMode.warn 0 0 9 0 9 [] []
      "VarUInt overflow" (by decide) (by decide) (by decide) (by decide)
      (by decide) (by decide) (by decide) (by decide)⟩

end RSD
